import Mathlib

/-!
# Lua 5.4 core macros (`lua_all.h`): a shallow embedding

The header is a concatenation of the Lua 5.4.4 internal headers.  The
definitions below follow its macros one by one, keeping their names.

Conventions of the embedding:

* an `Instruction` (`l_uint32`) is a natural number below `2^32`; every
  operation that C performs in 32-bit unsigned arithmetic reduces its
  result modulo `2^32` explicitly;
* a C `int` is an `Int`; `cast_int` of an unsigned word is the
  twos-complement reading of its 32 bits, `cast(Instruction, v)` and
  `cast_uint(v)` of an `int` are `v` modulo `2^32`; where an `int`
  expression can leave the range of `int`, its value is `int32` of the exact
  result;
* `lu_byte` fields hold naturals below `256`;
* internal assertions are disabled (`lua_assert` is not defined), so
  `check_exp(c,e)` is `e` and `lua_assert`, `lua_longassert` are no-ops.
-/

namespace Lua

/-! ## Machine arithmetic -/

/-- Constant `UINT_MAX` for the 32-bit `unsigned int` that `l_uint32` stands for. -/
def UINT_MAX : Nat := 4294967295

/-- Constant `MAX_INT` (`INT_MAX`) for a 32-bit `int`. -/
def MAX_INT : Int := 2147483647

/-- Macro `cast(Instruction, v)`: conversion of an `int` to the unsigned 32-bit type. -/
def castInstruction (v : Int) : Nat := (v % 4294967296).toNat

/-- Macro `cast_uint(v)`: conversion of an `int` to `unsigned int`. -/
def cast_uint (v : Int) : Int := v % 4294967296

/-- Macro `cast_int(x)`: conversion of an unsigned 32-bit word to `int`. -/
def cast_int (x : Nat) : Int :=
  if x % 4294967296 < 2147483648 then ((x % 4294967296 : Nat) : Int)
  else ((x % 4294967296 : Nat) : Int) - 4294967296

/-- Shift `x << n` on 32-bit unsigned words. -/
def shl32 (x n : Nat) : Nat := (x <<< n) % 4294967296

/-- Shift `x >> n` on 32-bit unsigned words. -/
def shr32 (x n : Nat) : Nat := (x % 4294967296) >>> n

/-- Complement `~x` on 32-bit unsigned words. -/
def not32 (x : Nat) : Nat := 4294967295 - x % 4294967296

/-! ## lopcodes.h: size and position of opcode arguments -/

def SIZE_C : Nat := 8
def SIZE_B : Nat := 8
def SIZE_Bx : Nat := SIZE_C + SIZE_B + 1
def SIZE_A : Nat := 8
def SIZE_Ax : Nat := SIZE_Bx + SIZE_A
def SIZE_sJ : Nat := SIZE_Bx + SIZE_A

def SIZE_OP : Nat := 7

def POS_OP : Nat := 0

def POS_A : Nat := POS_OP + SIZE_OP
def POS_k : Nat := POS_A + SIZE_A
def POS_B : Nat := POS_k + 1
def POS_C : Nat := POS_B + SIZE_B

def POS_Bx : Nat := POS_k

def POS_Ax : Nat := POS_A

def POS_sJ : Nat := POS_A

/-- Macro `L_INTHASBITS(b)`: whether type `int` has at least `b` bits. -/
def L_INTHASBITS (b : Nat) : Bool := decide ((UINT_MAX >>> (b - 1)) ≥ 1)

def MAXARG_Bx : Int := if L_INTHASBITS SIZE_Bx then (1 <<< SIZE_Bx : Nat) - 1 else MAX_INT

def OFFSET_sBx : Int := MAXARG_Bx >>> 1

def MAXARG_Ax : Int := if L_INTHASBITS SIZE_Ax then (1 <<< SIZE_Ax : Nat) - 1 else MAX_INT

def MAXARG_sJ : Int := if L_INTHASBITS SIZE_sJ then (1 <<< SIZE_sJ : Nat) - 1 else MAX_INT

def OFFSET_sJ : Int := MAXARG_sJ >>> 1

def MAXARG_A : Int := (1 <<< SIZE_A : Nat) - 1
def MAXARG_B : Int := (1 <<< SIZE_B : Nat) - 1
def MAXARG_C : Int := (1 <<< SIZE_C : Nat) - 1
def OFFSET_sC : Int := MAXARG_C >>> 1

def int2sC (i : Int) : Int := i + OFFSET_sC
def sC2int (i : Int) : Int := i - OFFSET_sC

/-- Macro `MASK1(n,p)`: a mask with `n` 1 bits at position `p`. -/
def MASK1 (n p : Nat) : Nat := shl32 (not32 (shl32 (not32 0) n)) p

/-- Macro `MASK0(n,p)`: a mask with `n` 0 bits at position `p`. -/
def MASK0 (n p : Nat) : Nat := not32 (MASK1 n p)

/-! ## lopcodes.h: instruction accessors -/

def GET_OPCODE (i : Nat) : Int := cast_int (shr32 i POS_OP &&& MASK1 SIZE_OP 0)

def SET_OPCODE (i : Nat) (o : Int) : Nat :=
  (i &&& MASK0 SIZE_OP POS_OP) ||| (shl32 (castInstruction o) POS_OP &&& MASK1 SIZE_OP POS_OP)

def getarg (i pos size : Nat) : Int := cast_int (shr32 i pos &&& MASK1 size 0)

def setarg (i : Nat) (v : Int) (pos size : Nat) : Nat :=
  (i &&& MASK0 size pos) ||| (shl32 (castInstruction v) pos &&& MASK1 size pos)

def GETARG_A (i : Nat) : Int := getarg i POS_A SIZE_A
def SETARG_A (i : Nat) (v : Int) : Nat := setarg i v POS_A SIZE_A

def GETARG_B (i : Nat) : Int := getarg i POS_B SIZE_B
def GETARG_sB (i : Nat) : Int := sC2int (GETARG_B i)
def SETARG_B (i : Nat) (v : Int) : Nat := setarg i v POS_B SIZE_B

def GETARG_C (i : Nat) : Int := getarg i POS_C SIZE_C
def GETARG_sC (i : Nat) : Int := sC2int (GETARG_C i)
def SETARG_C (i : Nat) (v : Int) : Nat := setarg i v POS_C SIZE_C

def TESTARG_k (i : Nat) : Int := cast_int (i &&& shl32 1 POS_k)
def GETARG_k (i : Nat) : Int := getarg i POS_k 1
def SETARG_k (i : Nat) (v : Int) : Nat := setarg i v POS_k 1

def GETARG_Bx (i : Nat) : Int := getarg i POS_Bx SIZE_Bx
def SETARG_Bx (i : Nat) (v : Int) : Nat := setarg i v POS_Bx SIZE_Bx

def GETARG_Ax (i : Nat) : Int := getarg i POS_Ax SIZE_Ax
def SETARG_Ax (i : Nat) (v : Int) : Nat := setarg i v POS_Ax SIZE_Ax

def GETARG_sBx (i : Nat) : Int := getarg i POS_Bx SIZE_Bx - OFFSET_sBx
def SETARG_sBx (i : Nat) (b : Int) : Nat := SETARG_Bx i (cast_uint (b + OFFSET_sBx))

def GETARG_sJ (i : Nat) : Int := getarg i POS_sJ SIZE_sJ - OFFSET_sJ
def SETARG_sJ (i : Nat) (j : Int) : Nat := setarg i (cast_uint (j + OFFSET_sJ)) POS_sJ SIZE_sJ

def CREATE_ABCk (o a b c k : Int) : Nat :=
  shl32 (castInstruction o) POS_OP
    ||| shl32 (castInstruction a) POS_A
    ||| shl32 (castInstruction b) POS_B
    ||| shl32 (castInstruction c) POS_C
    ||| shl32 (castInstruction k) POS_k

def CREATE_ABx (o a bc : Int) : Nat :=
  shl32 (castInstruction o) POS_OP
    ||| shl32 (castInstruction a) POS_A
    ||| shl32 (castInstruction bc) POS_Bx

def CREATE_Ax (o a : Int) : Nat :=
  shl32 (castInstruction o) POS_OP
    ||| shl32 (castInstruction a) POS_Ax

/-! ## lua.h / lobject.h: type tags -/

def LUA_TNIL : Nat := 0
def LUA_TBOOLEAN : Nat := 1
def LUA_TLIGHTUSERDATA : Nat := 2
def LUA_TNUMBER : Nat := 3
def LUA_TSTRING : Nat := 4
def LUA_TTABLE : Nat := 5
def LUA_TFUNCTION : Nat := 6
def LUA_TUSERDATA : Nat := 7
def LUA_TTHREAD : Nat := 8

def LUA_NUMTYPES : Nat := 9

def LUA_TUPVAL : Nat := LUA_NUMTYPES
def LUA_TPROTO : Nat := LUA_NUMTYPES + 1
def LUA_TDEADKEY : Nat := LUA_NUMTYPES + 2

/-- Macro `makevariant(t,v)`: add variant bits to a type. -/
def makevariant (t v : Nat) : Nat := t ||| (v <<< 4)

/-- Macro `novariant(t)`: tag with no variants (bits 0-3). -/
def novariant (t : Nat) : Nat := t &&& 0x0F

/-- Macro `withvariant(t)`: bits 0-3 for tags + variant bits 4-5. -/
def withvariant (t : Nat) : Nat := t &&& 0x3F

/-- Bit mark for collectable types. -/
def BIT_ISCOLLECTABLE : Nat := 1 <<< 6

/-- Macro `ctb(t)`: mark a tag as collectable. -/
def ctb (t : Nat) : Nat := t ||| BIT_ISCOLLECTABLE

def LUA_VNIL : Nat := makevariant LUA_TNIL 0
def LUA_VEMPTY : Nat := makevariant LUA_TNIL 1
def LUA_VABSTKEY : Nat := makevariant LUA_TNIL 2
def LUA_VFALSE : Nat := makevariant LUA_TBOOLEAN 0
def LUA_VTRUE : Nat := makevariant LUA_TBOOLEAN 1
def LUA_VTHREAD : Nat := makevariant LUA_TTHREAD 0
def LUA_VNUMINT : Nat := makevariant LUA_TNUMBER 0
def LUA_VNUMFLT : Nat := makevariant LUA_TNUMBER 1
def LUA_VSHRSTR : Nat := makevariant LUA_TSTRING 0
def LUA_VLNGSTR : Nat := makevariant LUA_TSTRING 1
def LUA_VLIGHTUSERDATA : Nat := makevariant LUA_TLIGHTUSERDATA 0
def LUA_VUSERDATA : Nat := makevariant LUA_TUSERDATA 0
def LUA_VPROTO : Nat := makevariant LUA_TPROTO 0
def LUA_VUPVAL : Nat := makevariant LUA_TUPVAL 0
def LUA_VLCL : Nat := makevariant LUA_TFUNCTION 0
def LUA_VLCF : Nat := makevariant LUA_TFUNCTION 1
def LUA_VCCL : Nat := makevariant LUA_TFUNCTION 2
def LUA_VTABLE : Nat := makevariant LUA_TTABLE 0

/-! ## lobject.h: tagged values -/

/-- The `Value` union.  Its members (`gc`, `p`, `f`, `i`, `n`) overlay one
storage cell, which the macros modelled here only copy as a whole; the cell
is represented by its content. -/
structure Value where
  bits : Nat
  deriving DecidableEq

/-- Type `TValue`: the fields `TValuefields`, a value plus its tag (`lu_byte`). -/
structure TValue where
  value_ : Value
  tt_ : Nat
  deriving DecidableEq

def rawtt (o : TValue) : Nat := o.tt_
def ttypetag (o : TValue) : Nat := withvariant (rawtt o)
def ttype (o : TValue) : Nat := novariant (rawtt o)
def iscollectable (o : TValue) : Nat := rawtt o &&& BIT_ISCOLLECTABLE

/-- The memory that the value-copy macros act on.  `tv a` is the `TValue`
stored at address `a`; `delta a` is the `tbclist.delta` field which, in a
`StackValue` at address `a`, lies after the `TValuefields`; `rest` stands
for all other state (thread, global state, heap objects). -/
structure Store (σ : Type) where
  tv : Nat → TValue
  delta : Nat → Nat
  rest : σ

/-- The assignment `io1->value_ = x`. -/
def Store.set_value_ {σ : Type} (s : Store σ) (io1 : Nat) (x : Value) : Store σ :=
  { s with tv := fun a => if a = io1 then { s.tv a with value_ := x } else s.tv a }

/-- Macro `settt_(o,t)`: the assignment `o->tt_ = t`. -/
def Store.settt_ {σ : Type} (s : Store σ) (o : Nat) (t : Nat) : Store σ :=
  { s with tv := fun a => if a = o then { s.tv a with tt_ := t } else s.tv a }

/-- Macro `s2v(o)`: the address of member `val` of the `StackValue` at `o`. -/
def s2v (o : Nat) : Nat := o

/-- Macro `setobj(L,obj1,obj2)`: the two assignments in source order; the trailing
`checkliveness` and `lua_assert` expand to `(void)0`. -/
def setobj {σ : Type} (_L : Nat) (s : Store σ) (obj1 obj2 : Nat) : Store σ :=
  let io1 := obj1
  let io2 := obj2
  let s1 := s.set_value_ io1 (s.tv io2).value_
  let s2 := s1.settt_ io1 (s1.tv io2).tt_
  s2

def setobjs2s {σ : Type} (L : Nat) (s : Store σ) (o1 o2 : Nat) : Store σ :=
  setobj L s (s2v o1) (s2v o2)
def setobj2s {σ : Type} (L : Nat) (s : Store σ) (o1 o2 : Nat) : Store σ :=
  setobj L s (s2v o1) o2
def setobjt2t {σ : Type} (L : Nat) (s : Store σ) (o1 o2 : Nat) : Store σ := setobj L s o1 o2
def setobj2n {σ : Type} (L : Nat) (s : Store σ) (o1 o2 : Nat) : Store σ := setobj L s o1 o2
def setobj2t {σ : Type} (L : Nat) (s : Store σ) (o1 o2 : Nat) : Store σ := setobj L s o1 o2

/-! ## lobject.h: hash nodes -/

/-- Type `Node`: the members of `struct NodeKey u`; the other union member
`i_val` is the pair of the first two fields. -/
structure Node where
  value_ : Value
  tt_ : Nat
  key_tt : Nat
  next : Int
  key_val : Value
  deriving DecidableEq

def keytt (node : Node) : Nat := node.key_tt
def keyval (node : Node) : Value := node.key_val

def keyisnil (node : Node) : Bool := keytt node == LUA_TNIL

/-- Macro `setdeadkey(node)`: the assignment `keytt(node) = LUA_TDEADKEY`. -/
def setdeadkey (node : Node) : Node := { node with key_tt := LUA_TDEADKEY }
def keyisdead (node : Node) : Bool := keytt node == LUA_TDEADKEY

/-- Macro `gval(n)`: the value of the node, `&(n)->i_val`. -/
def gval (n : Node) : TValue := { value_ := n.value_, tt_ := n.tt_ }
/-- Macro `gnext(n)`: the chain link of the node, `(n)->u.next`. -/
def gnext (n : Node) : Int := n.next

/-! ## lstate.h / lgc.h: collector state and mark bits -/

/-- The fields of `global_State` that the collector macros read. -/
structure global_State where
  currentwhite : Nat
  gcstate : Nat
  deriving DecidableEq

/-- Type `GCObject`: the `CommonHeader` fields. -/
structure GCObject where
  next : Nat
  tt : Nat
  marked : Nat
  deriving DecidableEq

def GCSpropagate : Nat := 0
def GCSenteratomic : Nat := 1
def GCSatomic : Nat := 2
def GCSswpallgc : Nat := 3
def GCSswpfinobj : Nat := 4
def GCSswptobefnz : Nat := 5
def GCSswpend : Nat := 6
def GCScallfin : Nat := 7
def GCSpause : Nat := 8

def issweepphase (g : global_State) : Bool :=
  decide (GCSswpallgc ≤ g.gcstate) && decide (g.gcstate ≤ GCSswpend)

def keepinvariant (g : global_State) : Bool := decide (g.gcstate ≤ GCSatomic)

/-- Macro `cast_byte(i)`: conversion to `lu_byte`. -/
def cast_byte (i : Nat) : Nat := i % 256

def testbits (x m : Nat) : Nat := x &&& m
def bitmask (b : Nat) : Nat := 1 <<< b
def bit2mask (b1 b2 : Nat) : Nat := bitmask b1 ||| bitmask b2
def testbit (x b : Nat) : Nat := testbits x (bitmask b)

def WHITE0BIT : Nat := 3
def WHITE1BIT : Nat := 4
def BLACKBIT : Nat := 5
def FINALIZEDBIT : Nat := 6

def TESTBIT : Nat := 7

def WHITEBITS : Nat := bit2mask WHITE0BIT WHITE1BIT

def iswhite (x : GCObject) : Nat := testbits x.marked WHITEBITS
def isblack (x : GCObject) : Nat := testbit x.marked BLACKBIT
def isgray (x : GCObject) : Bool := testbits x.marked (WHITEBITS ||| bitmask BLACKBIT) == 0

def tofinalize (x : GCObject) : Nat := testbit x.marked FINALIZEDBIT

def otherwhite (g : global_State) : Nat := g.currentwhite ^^^ WHITEBITS
def isdeadm (ow m : Nat) : Nat := m &&& ow
def isdead (g : global_State) (v : GCObject) : Nat := isdeadm (otherwhite g) v.marked

def luaC_white (g : global_State) : Nat := cast_byte (g.currentwhite &&& WHITEBITS)

/-! ## lgc.h: write barriers -/

/-- Macro `gcvalue(o)`: the pointer `val_(o).gc` held in the payload. -/
def gcvalue (o : TValue) : Nat := o.value_.bits

/-- Macro `obj2gco(v)`: the address `&(cast_u(v)->gc)` of an object seen as a
`GCObject`, which is the address of the object. -/
def obj2gco (v : Nat) : Nat := v

/-- The calls a barrier macro can make: `luaC_barrier_(L,o,v)` and
`luaC_barrierback_(L,o)`, functions that the header only declares. -/
inductive BarrierCall where
  | luaC_barrier_ (L o v : Nat)
  | luaC_barrierback_ (L o : Nat)
  deriving DecidableEq

/-- Macro `luaC_barrier(L,p,v)`: `p` is the address of the parent object, `v`
the stored `TValue`, `heap` gives the header of the object at an address.
The result is the call made, `none` for `cast_void(0)`. -/
def luaC_barrier (heap : Nat → GCObject) (L p : Nat) (v : TValue) : Option BarrierCall :=
  if (iscollectable v != 0 && isblack (heap p) != 0 && iswhite (heap (gcvalue v)) != 0) then
    some (BarrierCall.luaC_barrier_ L (obj2gco p) (gcvalue v))
  else none

/-- Macro `luaC_barrierback(L,p,v)`. -/
def luaC_barrierback (heap : Nat → GCObject) (L p : Nat) (v : TValue) : Option BarrierCall :=
  if (iscollectable v != 0 && isblack (heap p) != 0 && iswhite (heap (gcvalue v)) != 0) then
    some (BarrierCall.luaC_barrierback_ L p)
  else none

/-- Macro `luaC_objbarrier(L,p,o)`: `p` and `o` are addresses of objects. -/
def luaC_objbarrier (heap : Nat → GCObject) (L p o : Nat) : Option BarrierCall :=
  if (isblack (heap p) != 0 && iswhite (heap o) != 0) then
    some (BarrierCall.luaC_barrier_ L (obj2gco p) (obj2gco o))
  else none

/-! ## luaconf.h / llimits.h: Lua integers

`lua_Integer` is a signed twos-complement type of `w` bits and
`lua_Unsigned` the unsigned type of the same width; in the configuration of
this header (`LUA_INT_TYPE` is `LUA_INT_LONGLONG`) they are `long long` and
`unsigned long long`, `w = 64`. -/

def LUA_MAXINTEGER (w : Nat) : Int := 2 ^ (w - 1) - 1
def LUA_MININTEGER (w : Nat) : Int := -(2 ^ (w - 1))
def LUA_MAXUNSIGNED (w : Nat) : Nat := 2 ^ w - 1

/-- Macro `l_castS2U(i)`: `(lua_Unsigned)(i)`. -/
def l_castS2U (w : Nat) (i : Int) : Nat := (i % 2 ^ w).toNat

/-- Macro `l_castU2S(i)`: `(lua_Integer)(i)`, on a twos-complement machine. -/
def l_castU2S (w : Nat) (u : Nat) : Int :=
  if u % 2 ^ w < 2 ^ (w - 1) then ((u % 2 ^ w : Nat) : Int)
  else ((u % 2 ^ w : Nat) : Int) - 2 ^ w

/-- The C operators that `intop` is instantiated with. -/
inductive ArithOp where
  | add | sub | mul | band | bor | bxor
  deriving DecidableEq

/-- The operator applied to two `lua_Unsigned` operands, in `w`-bit unsigned
arithmetic. -/
def ArithOp.unsignedOp (w : Nat) : ArithOp → Nat → Nat → Nat
  | ArithOp.add, x, y => (x + y) % 2 ^ w
  | ArithOp.sub, x, y => (((x : Int) - (y : Int)) % 2 ^ w).toNat
  | ArithOp.mul, x, y => (x * y) % 2 ^ w
  | ArithOp.band, x, y => x &&& y
  | ArithOp.bor, x, y => x ||| y
  | ArithOp.bxor, x, y => x ^^^ y

/-- The operator on the mathematical integers (bitwise operators act on the
infinite twos-complement expansions). -/
def ArithOp.onInt : ArithOp → Int → Int → Int
  | ArithOp.add, a, b => a + b
  | ArithOp.sub, a, b => a - b
  | ArithOp.mul, a, b => a * b
  | ArithOp.band, a, b => Int.land a b
  | ArithOp.bor, a, b => Int.lor a b
  | ArithOp.bxor, a, b => Int.xor a b

/-- Macro `intop(op,v1,v2)`: `l_castU2S(l_castS2U(v1) op l_castS2U(v2))`. -/
def intop (w : Nat) (op : ArithOp) (v1 v2 : Int) : Int :=
  l_castU2S w (op.unsignedOp w (l_castS2U w v1) (l_castS2U w v2))

/-! ## luaconf.h / llimits.h: floats, modelled exactly

A `lua_Number` is modelled by the rational number it stands for: no
rounding, no infinities, no NaN. -/

/-- Conversion `(LUA_INTEGER)(n)` of a float to an integer type: the
fractional part is discarded (truncation toward zero). -/
def truncate (n : ℚ) : Int := if 0 ≤ n then ⌊n⌋ else ⌈n⌉

/-- Macro `lua_numbertointeger(n,p)`: the result is the value of the
expression (0 or 1) paired with the content of `*p` afterwards. -/
def lua_numbertointeger (w : Nat) (n : ℚ) (p : Int) : Int × Int :=
  if ((LUA_MININTEGER w : ℚ) ≤ n ∧ n < -(LUA_MININTEGER w : ℚ)) then (1, truncate n)
  else (0, p)

/-- C library function `fmod`, as the comment on `luai_nummod` describes it:
the result of `a - trunc(a/b)*b`. -/
def fmod (a b : ℚ) : ℚ := a - (truncate (a / b) : ℚ) * b

/-- Macro `luai_nummod(L,a,b,m)`: the value left in `m`. -/
def luai_nummod (a b : ℚ) : ℚ :=
  let m := fmod a b
  if (if m > 0 then b < 0 else (m < 0 ∧ b > 0)) then m + b else m

/-! ## lobject.h / lvm.h: tables and the integer fast path -/

/-- Type `Table`: pointers are addresses. -/
structure Table where
  next : Nat
  tt : Nat
  marked : Nat
  flags : Nat
  lsizenode : Nat
  alimit : Nat
  array : Nat
  node : Nat
  lastfree : Nat
  metatable : Nat
  gclist : Nat
  deriving DecidableEq

def checktag (o : TValue) (t : Nat) : Bool := rawtt o == t
def ttistable (o : TValue) : Bool := checktag o (ctb LUA_VTABLE)

/-- The guard `l_castS2U(k) - 1u < alimit` of `luaV_fastgeti`, the
subtraction being done in `lua_Unsigned`. -/
def fastgeti_guard (w : Nat) (k : Int) (alimit : Nat) : Bool :=
  decide ((((l_castS2U w k : Int) - 1) % 2 ^ w).toNat < alimit)

/-- Where `luaV_fastgeti` takes `slot` from: `NULL`, the element
`array[idx]` of a table, or the result of `luaH_getint(h,k)`, a function the
header only declares. -/
inductive SlotSource where
  | null
  | array (h : Nat) (idx : Int)
  | luaH_getint (h : Nat) (k : Int)
  deriving DecidableEq

/-- Macro `luaV_fastgeti(L,t,k,slot)`: the choice of `slot`; `tables` gives
the table at an address. -/
def luaV_fastgeti (w : Nat) (tables : Nat → Table) (t : TValue) (k : Int) : SlotSource :=
  if !ttistable t then SlotSource.null
  else if fastgeti_guard w k (tables (gcvalue t)).alimit then
    SlotSource.array (gcvalue t) (k - 1)
  else SlotSource.luaH_getint (gcvalue t) k

/-! ## lstate.h / ldo.h: threads -/

/-- The fields of `lua_State` that the macros modelled here use: the address
of the stack (in bytes) and the call counter `nCcalls` (`l_uint32`). -/
structure lua_State where
  stack : Int
  nCcalls : Nat
  deriving DecidableEq

/-- Macro `savestack(L,p)`: the byte offset of `p` from the stack base. -/
def savestack (L : lua_State) (p : Int) : Int := p - L.stack

/-- Macro `restorestack(L,n)`: the address at byte offset `n` in the stack. -/
def restorestack (L : lua_State) (n : Int) : Int := L.stack + n

def LUAI_MAXCCALLS : Nat := 200

def yieldable (L : lua_State) : Bool := (L.nCcalls &&& 0xffff0000) == 0

def getCcalls (L : lua_State) : Nat := L.nCcalls &&& 0xffff

/-- Macro `incnny(L)`: `nCcalls += 0x10000` on a 32-bit unsigned field. -/
def incnny (L : lua_State) : lua_State :=
  { L with nCcalls := (L.nCcalls + 0x10000) % 4294967296 }

/-- Macro `decnny(L)`: `nCcalls -= 0x10000` on a 32-bit unsigned field. -/
def decnny (L : lua_State) : lua_State :=
  { L with nCcalls := (((L.nCcalls : Int) - 0x10000) % 4294967296).toNat }

def nyci : Nat := 0x10000 ||| 1

/-! ## lua.h / luaconf.h: pseudo-indices and result counts -/

/-- Macro `LUAI_IS32INT`: true iff `int` has at least 32 bits. -/
def LUAI_IS32INT : Bool := decide ((UINT_MAX >>> 30) ≥ 3)

def LUAI_MAXSTACK : Int := if LUAI_IS32INT then 1000000 else 15000

def LUA_REGISTRYINDEX : Int := -LUAI_MAXSTACK - 1000
def lua_upvalueindex (i : Int) : Int := LUA_REGISTRYINDEX - i

def MAXUPVAL : Int := 255

def LUA_OPADD : Nat := 0
def LUA_OPSUB : Nat := 1
def LUA_OPMUL : Nat := 2
def LUA_OPMOD : Nat := 3
def LUA_OPPOW : Nat := 4
def LUA_OPDIV : Nat := 5
def LUA_OPIDIV : Nat := 6
def LUA_OPBAND : Nat := 7
def LUA_OPBOR : Nat := 8
def LUA_OPBXOR : Nat := 9
def LUA_OPSHL : Nat := 10
def LUA_OPSHR : Nat := 11
def LUA_OPUNM : Nat := 12
def LUA_OPBNOT : Nat := 13

/-- Type `TMS`: the tag-method events (ORDER TM, ORDER OP). -/
inductive TMS where
  | TM_INDEX | TM_NEWINDEX | TM_GC | TM_MODE | TM_LEN | TM_EQ | TM_ADD | TM_SUB | TM_MUL
  | TM_MOD | TM_POW | TM_DIV | TM_IDIV | TM_BAND | TM_BOR | TM_BXOR | TM_SHL | TM_SHR | TM_UNM
  | TM_BNOT | TM_LT | TM_LE | TM_CONCAT | TM_CALL | TM_CLOSE | TM_N
  deriving DecidableEq

/-- Type `BinOpr`: the binary operators of the code generator. -/
inductive BinOpr where
  | OPR_ADD | OPR_SUB | OPR_MUL | OPR_MOD | OPR_POW | OPR_DIV | OPR_IDIV | OPR_BAND | OPR_BOR
  | OPR_BXOR | OPR_SHL | OPR_SHR | OPR_CONCAT | OPR_EQ | OPR_LT | OPR_LE | OPR_NE | OPR_GT
  | OPR_GE | OPR_AND | OPR_OR | OPR_NOBINOPR
  deriving DecidableEq

/-- Type `OpCode`: the opcodes of the virtual machine, in the order of the
enumeration. -/
inductive OpCode where
  | OP_MOVE | OP_LOADI | OP_LOADF | OP_LOADK | OP_LOADKX | OP_LOADFALSE | OP_LFALSESKIP
  | OP_LOADTRUE | OP_LOADNIL | OP_GETUPVAL | OP_SETUPVAL | OP_GETTABUP | OP_GETTABLE | OP_GETI
  | OP_GETFIELD | OP_SETTABUP | OP_SETTABLE | OP_SETI | OP_SETFIELD | OP_NEWTABLE | OP_SELF
  | OP_ADDI | OP_ADDK | OP_SUBK | OP_MULK | OP_MODK | OP_POWK | OP_DIVK | OP_IDIVK | OP_BANDK
  | OP_BORK | OP_BXORK | OP_SHRI | OP_SHLI | OP_ADD | OP_SUB | OP_MUL | OP_MOD | OP_POW | OP_DIV
  | OP_IDIV | OP_BAND | OP_BOR | OP_BXOR | OP_SHL | OP_SHR | OP_MMBIN | OP_MMBINI | OP_MMBINK
  | OP_UNM | OP_BNOT | OP_NOT | OP_LEN | OP_CONCAT | OP_CLOSE | OP_TBC | OP_JMP | OP_EQ | OP_LT
  | OP_LE | OP_EQK | OP_EQI | OP_LTI | OP_LEI | OP_GTI | OP_GEI | OP_TEST | OP_TESTSET | OP_CALL
  | OP_TAILCALL | OP_RETURN | OP_RETURN0 | OP_RETURN1 | OP_FORLOOP | OP_FORPREP | OP_TFORPREP
  | OP_TFORCALL | OP_TFORLOOP | OP_SETLIST | OP_CLOSURE | OP_VARARG | OP_VARARGPREP
  | OP_EXTRAARG
  deriving DecidableEq

/-! ## lopcodes.h, lopnames.h, ljumptab.h: the opcode tables -/

/-- The identifier of each constant of the enumeration `OpCode`. -/
def OpCode.cname : OpCode → String
  | OpCode.OP_MOVE => "OP_MOVE"
  | OpCode.OP_LOADI => "OP_LOADI"
  | OpCode.OP_LOADF => "OP_LOADF"
  | OpCode.OP_LOADK => "OP_LOADK"
  | OpCode.OP_LOADKX => "OP_LOADKX"
  | OpCode.OP_LOADFALSE => "OP_LOADFALSE"
  | OpCode.OP_LFALSESKIP => "OP_LFALSESKIP"
  | OpCode.OP_LOADTRUE => "OP_LOADTRUE"
  | OpCode.OP_LOADNIL => "OP_LOADNIL"
  | OpCode.OP_GETUPVAL => "OP_GETUPVAL"
  | OpCode.OP_SETUPVAL => "OP_SETUPVAL"
  | OpCode.OP_GETTABUP => "OP_GETTABUP"
  | OpCode.OP_GETTABLE => "OP_GETTABLE"
  | OpCode.OP_GETI => "OP_GETI"
  | OpCode.OP_GETFIELD => "OP_GETFIELD"
  | OpCode.OP_SETTABUP => "OP_SETTABUP"
  | OpCode.OP_SETTABLE => "OP_SETTABLE"
  | OpCode.OP_SETI => "OP_SETI"
  | OpCode.OP_SETFIELD => "OP_SETFIELD"
  | OpCode.OP_NEWTABLE => "OP_NEWTABLE"
  | OpCode.OP_SELF => "OP_SELF"
  | OpCode.OP_ADDI => "OP_ADDI"
  | OpCode.OP_ADDK => "OP_ADDK"
  | OpCode.OP_SUBK => "OP_SUBK"
  | OpCode.OP_MULK => "OP_MULK"
  | OpCode.OP_MODK => "OP_MODK"
  | OpCode.OP_POWK => "OP_POWK"
  | OpCode.OP_DIVK => "OP_DIVK"
  | OpCode.OP_IDIVK => "OP_IDIVK"
  | OpCode.OP_BANDK => "OP_BANDK"
  | OpCode.OP_BORK => "OP_BORK"
  | OpCode.OP_BXORK => "OP_BXORK"
  | OpCode.OP_SHRI => "OP_SHRI"
  | OpCode.OP_SHLI => "OP_SHLI"
  | OpCode.OP_ADD => "OP_ADD"
  | OpCode.OP_SUB => "OP_SUB"
  | OpCode.OP_MUL => "OP_MUL"
  | OpCode.OP_MOD => "OP_MOD"
  | OpCode.OP_POW => "OP_POW"
  | OpCode.OP_DIV => "OP_DIV"
  | OpCode.OP_IDIV => "OP_IDIV"
  | OpCode.OP_BAND => "OP_BAND"
  | OpCode.OP_BOR => "OP_BOR"
  | OpCode.OP_BXOR => "OP_BXOR"
  | OpCode.OP_SHL => "OP_SHL"
  | OpCode.OP_SHR => "OP_SHR"
  | OpCode.OP_MMBIN => "OP_MMBIN"
  | OpCode.OP_MMBINI => "OP_MMBINI"
  | OpCode.OP_MMBINK => "OP_MMBINK"
  | OpCode.OP_UNM => "OP_UNM"
  | OpCode.OP_BNOT => "OP_BNOT"
  | OpCode.OP_NOT => "OP_NOT"
  | OpCode.OP_LEN => "OP_LEN"
  | OpCode.OP_CONCAT => "OP_CONCAT"
  | OpCode.OP_CLOSE => "OP_CLOSE"
  | OpCode.OP_TBC => "OP_TBC"
  | OpCode.OP_JMP => "OP_JMP"
  | OpCode.OP_EQ => "OP_EQ"
  | OpCode.OP_LT => "OP_LT"
  | OpCode.OP_LE => "OP_LE"
  | OpCode.OP_EQK => "OP_EQK"
  | OpCode.OP_EQI => "OP_EQI"
  | OpCode.OP_LTI => "OP_LTI"
  | OpCode.OP_LEI => "OP_LEI"
  | OpCode.OP_GTI => "OP_GTI"
  | OpCode.OP_GEI => "OP_GEI"
  | OpCode.OP_TEST => "OP_TEST"
  | OpCode.OP_TESTSET => "OP_TESTSET"
  | OpCode.OP_CALL => "OP_CALL"
  | OpCode.OP_TAILCALL => "OP_TAILCALL"
  | OpCode.OP_RETURN => "OP_RETURN"
  | OpCode.OP_RETURN0 => "OP_RETURN0"
  | OpCode.OP_RETURN1 => "OP_RETURN1"
  | OpCode.OP_FORLOOP => "OP_FORLOOP"
  | OpCode.OP_FORPREP => "OP_FORPREP"
  | OpCode.OP_TFORPREP => "OP_TFORPREP"
  | OpCode.OP_TFORCALL => "OP_TFORCALL"
  | OpCode.OP_TFORLOOP => "OP_TFORLOOP"
  | OpCode.OP_SETLIST => "OP_SETLIST"
  | OpCode.OP_CLOSURE => "OP_CLOSURE"
  | OpCode.OP_VARARG => "OP_VARARG"
  | OpCode.OP_VARARGPREP => "OP_VARARGPREP"
  | OpCode.OP_EXTRAARG => "OP_EXTRAARG"

/-- Macro `NUM_OPCODES`: `((int)(OP_EXTRAARG) + 1)`. -/
def NUM_OPCODES : Nat := OpCode.OP_EXTRAARG.toCtorIdx + 1

/-- The array `opnames` of lopnames.h: `none` stands for `NULL`. -/
def opnames : List (Option String) :=
  [some "MOVE", some "LOADI", some "LOADF", some "LOADK", some "LOADKX", some "LOADFALSE",
   some "LFALSESKIP", some "LOADTRUE", some "LOADNIL", some "GETUPVAL", some "SETUPVAL",
   some "GETTABUP", some "GETTABLE", some "GETI", some "GETFIELD", some "SETTABUP",
   some "SETTABLE", some "SETI", some "SETFIELD", some "NEWTABLE", some "SELF", some "ADDI",
   some "ADDK", some "SUBK", some "MULK", some "MODK", some "POWK", some "DIVK", some "IDIVK",
   some "BANDK", some "BORK", some "BXORK", some "SHRI", some "SHLI", some "ADD", some "SUB",
   some "MUL", some "MOD", some "POW", some "DIV", some "IDIV", some "BAND", some "BOR",
   some "BXOR", some "SHL", some "SHR", some "MMBIN", some "MMBINI", some "MMBINK", some "UNM",
   some "BNOT", some "NOT", some "LEN", some "CONCAT", some "CLOSE", some "TBC", some "JMP",
   some "EQ", some "LT", some "LE", some "EQK", some "EQI", some "LTI", some "LEI", some "GTI",
   some "GEI", some "TEST", some "TESTSET", some "CALL", some "TAILCALL", some "RETURN",
   some "RETURN0", some "RETURN1", some "FORLOOP", some "FORPREP", some "TFORPREP",
   some "TFORCALL", some "TFORLOOP", some "SETLIST", some "CLOSURE", some "VARARG",
   some "VARARGPREP", some "EXTRAARG", none]

/-- The array `disptab` of ljumptab.h: the entry `&&L` is the label `L`,
and `vmcase(l)` declares the label `L_l`. -/
def disptab : List String :=
  ["L_OP_MOVE", "L_OP_LOADI", "L_OP_LOADF", "L_OP_LOADK", "L_OP_LOADKX", "L_OP_LOADFALSE",
   "L_OP_LFALSESKIP", "L_OP_LOADTRUE", "L_OP_LOADNIL", "L_OP_GETUPVAL", "L_OP_SETUPVAL",
   "L_OP_GETTABUP", "L_OP_GETTABLE", "L_OP_GETI", "L_OP_GETFIELD", "L_OP_SETTABUP",
   "L_OP_SETTABLE", "L_OP_SETI", "L_OP_SETFIELD", "L_OP_NEWTABLE", "L_OP_SELF", "L_OP_ADDI",
   "L_OP_ADDK", "L_OP_SUBK", "L_OP_MULK", "L_OP_MODK", "L_OP_POWK", "L_OP_DIVK", "L_OP_IDIVK",
   "L_OP_BANDK", "L_OP_BORK", "L_OP_BXORK", "L_OP_SHRI", "L_OP_SHLI", "L_OP_ADD", "L_OP_SUB",
   "L_OP_MUL", "L_OP_MOD", "L_OP_POW", "L_OP_DIV", "L_OP_IDIV", "L_OP_BAND", "L_OP_BOR",
   "L_OP_BXOR", "L_OP_SHL", "L_OP_SHR", "L_OP_MMBIN", "L_OP_MMBINI", "L_OP_MMBINK", "L_OP_UNM",
   "L_OP_BNOT", "L_OP_NOT", "L_OP_LEN", "L_OP_CONCAT", "L_OP_CLOSE", "L_OP_TBC", "L_OP_JMP",
   "L_OP_EQ", "L_OP_LT", "L_OP_LE", "L_OP_EQK", "L_OP_EQI", "L_OP_LTI", "L_OP_LEI", "L_OP_GTI",
   "L_OP_GEI", "L_OP_TEST", "L_OP_TESTSET", "L_OP_CALL", "L_OP_TAILCALL", "L_OP_RETURN",
   "L_OP_RETURN0", "L_OP_RETURN1", "L_OP_FORLOOP", "L_OP_FORPREP", "L_OP_TFORPREP",
   "L_OP_TFORCALL", "L_OP_TFORLOOP", "L_OP_SETLIST", "L_OP_CLOSURE", "L_OP_VARARG",
   "L_OP_VARARGPREP", "L_OP_EXTRAARG"]

/-! ## lgc.h: object age

The complement `~x` of an `int` or `unsigned int` is taken on its 32-bit
pattern (`not32`); the operands it is combined with are bytes or 16-bit
values, so the pattern decides the result. -/

def G_NEW : Nat := 0
def G_SURVIVAL : Nat := 1
def G_OLD0 : Nat := 2
def G_OLD1 : Nat := 3
def G_OLD : Nat := 4
def G_TOUCHED1 : Nat := 5
def G_TOUCHED2 : Nat := 6

def AGEBITS : Nat := 7

def getage (o : GCObject) : Nat := o.marked &&& AGEBITS

/-- Macro `setage(o,a)`: `marked = cast_byte((marked & (~AGEBITS)) | a)`. -/
def setage (o : GCObject) (a : Nat) : GCObject :=
  { o with marked := cast_byte ((o.marked &&& not32 AGEBITS) ||| a) }

def isold (o : GCObject) : Bool := decide (getage o > G_SURVIVAL)

/-- Macro `changeage(o,f,t)`: `marked ^= ((f)^(t))`, stored in a `lu_byte`;
the assertion `getage(o) == (f)` is disabled. -/
def changeage (o : GCObject) (f t : Nat) : GCObject :=
  { o with marked := (o.marked ^^^ (f ^^^ t)) % 256 }

/-! ## lstate.h: call status -/

def LUA_OK : Nat := 0
def LUA_YIELD : Nat := 1
def LUA_ERRRUN : Nat := 2
def LUA_ERRSYNTAX : Nat := 3
def LUA_ERRMEM : Nat := 4
def LUA_ERRERR : Nat := 5

/-- The field `callstatus` (`unsigned short`) of `CallInfo`, the only field
the status macros use. -/
structure CallInfo where
  callstatus : Nat
  deriving DecidableEq

def CIST_OAH : Nat := 1 <<< 0
def CIST_C : Nat := 1 <<< 1
def CIST_FRESH : Nat := 1 <<< 2
def CIST_HOOKED : Nat := 1 <<< 3
def CIST_YPCALL : Nat := 1 <<< 4
def CIST_TAIL : Nat := 1 <<< 5
def CIST_HOOKYIELD : Nat := 1 <<< 6
def CIST_FIN : Nat := 1 <<< 7
def CIST_TRAN : Nat := 1 <<< 8
def CIST_CLSRET : Nat := 1 <<< 9
def CIST_RECST : Nat := 10

def getcistrecst (ci : CallInfo) : Nat := (ci.callstatus >>> CIST_RECST) &&& 7

/-- Macro `setcistrecst(ci,st)`: the assignment to the `unsigned short`
field; the assertion that `st` fits in three bits is disabled. -/
def setcistrecst (ci : CallInfo) (st : Nat) : CallInfo :=
  { ci with callstatus :=
      ((ci.callstatus &&& not32 (7 <<< CIST_RECST)) ||| (st <<< CIST_RECST)) % 65536 }

def isLua (ci : CallInfo) : Bool := (ci.callstatus &&& CIST_C) == 0

def isLuacode (ci : CallInfo) : Bool := (ci.callstatus &&& (CIST_C ||| CIST_HOOKED)) == 0

/-- Macro `setoah(st,v)`: `st = (st & ~CIST_OAH) | v`, `st` being a
`callstatus` (`unsigned short`). -/
def setoah (st v : Nat) : Nat := ((st &&& not32 CIST_OAH) ||| v) % 65536
def getoah (st : Nat) : Nat := st &&& CIST_OAH

/-! ## lmem.h: sizes

`ss` is `sizeof(size_t)`, in bytes of 8 bits. -/

/-- Macro `cast_sizet(i)`: conversion to `size_t`. -/
def cast_sizet (ss : Nat) (i : Int) : Nat := (i % 2 ^ (8 * ss)).toNat

/-- Macro `MAX_SIZET`: `(size_t)(~(size_t)0)`, all bits set. -/
def MAX_SIZET (ss : Nat) : Nat := 2 ^ (8 * ss) - 1

/-- Macro `luaM_testsize(n,e)`: `sizeof_n` is `sizeof(n)`; the sum
`cast_sizet(n) + 1` is computed in `size_t`. -/
def luaM_testsize (ss sizeof_n : Nat) (n : Int) (e : Nat) : Bool :=
  decide (sizeof_n ≥ ss) && decide ((cast_sizet ss n + 1) % 2 ^ (8 * ss) > MAX_SIZET ss / e)

/-- Macro `luaM_limitN(n,t)`: `sizeof_t` is `sizeof(t)`. -/
def luaM_limitN (ss : Nat) (n : Int) (sizeof_t : Nat) : Int :=
  if cast_sizet ss n ≤ MAX_SIZET ss / sizeof_t then n
  else cast_uint ((MAX_SIZET ss / sizeof_t : Nat) : Int)

/-! ## lobject.h / ltable.h: hash part and node keys -/

/-- Macro `lmod(s,size)`: `cast_int((s) & ((size)-1))`; the assertion that
`size` is a power of 2 is disabled. -/
def lmod (s size : Nat) : Int := cast_int (s &&& (size - 1))

def twoto (x : Nat) : Nat := 1 <<< x
def sizenode (t : Table) : Nat := twoto t.lsizenode

/-- Macro `setnodekey(L,node,obj)`: copy a value into a key. -/
def setnodekey (_L : Nat) (node : Node) (obj : TValue) : Node :=
  { node with key_val := obj.value_, key_tt := obj.tt_ }

/-- Macro `getnodekey(L,obj,node)`: copy a value from a key. -/
def getnodekey (_L : Nat) (obj : TValue) (node : Node) : TValue :=
  { obj with value_ := node.key_val, tt_ := node.key_tt }

/-! ## lopcodes.h: instruction properties -/

/-- Type `OpMode`: the basic instruction formats. -/
inductive OpMode where
  | iABC | iABx | iAsBx | iAx | isJ
  deriving DecidableEq

/-- Macro `opmode(mm,ot,it,t,a,m)`. -/
def opmode (mm ot it t a m : Nat) : Nat :=
  (mm <<< 7) ||| (ot <<< 6) ||| (it <<< 5) ||| (t <<< 4) ||| (a <<< 3) ||| m

/-- Macro `getOpMode(m)`: `luaP_opmodes` is an array the header only
declares; the value is that of the enumeration constant. -/
def getOpMode (luaP_opmodes : Nat → Nat) (m : Nat) : Nat := luaP_opmodes m &&& 7
def testAMode (luaP_opmodes : Nat → Nat) (m : Nat) : Nat := luaP_opmodes m &&& (1 <<< 3)
def testTMode (luaP_opmodes : Nat → Nat) (m : Nat) : Nat := luaP_opmodes m &&& (1 <<< 4)
def testITMode (luaP_opmodes : Nat → Nat) (m : Nat) : Nat := luaP_opmodes m &&& (1 <<< 5)
def testOTMode (luaP_opmodes : Nat → Nat) (m : Nat) : Nat := luaP_opmodes m &&& (1 <<< 6)
def testMMMode (luaP_opmodes : Nat → Nat) (m : Nat) : Nat := luaP_opmodes m &&& (1 <<< 7)

/-! ## ltm.h / lobject.h / ltable.h: the flags byte of a table -/

/-- Macro `maskflags`: `(~(~0u << (TM_EQ + 1)))`, in `unsigned int`. -/
def maskflags : Nat := not32 (shl32 (not32 0) (TMS.TM_EQ.toCtorIdx + 1))

def BITRAS : Nat := 1 <<< 7
def isrealasize (t : Table) : Bool := (t.flags &&& BITRAS) == 0

/-- Macro `setrealasize(t)`: `flags &= cast_byte(~BITRAS)`. -/
def setrealasize (t : Table) : Table :=
  { t with flags := (t.flags &&& cast_byte (not32 BITRAS)) % 256 }

/-- Macro `setnorealasize(t)`: `flags |= BITRAS`. -/
def setnorealasize (t : Table) : Table := { t with flags := (t.flags ||| BITRAS) % 256 }

/-- Macro `invalidateTMcache(t)`: `flags &= ~maskflags`. -/
def invalidateTMcache (t : Table) : Table :=
  { t with flags := (t.flags &&& not32 maskflags) % 256 }

/-- The result of `gfasttm`: `NULL`, or the result of the call
`luaT_gettm(et, e, (g)->tmname[e])` of a function the header only declares. -/
inductive FastTM where
  | null
  | luaT_gettm (et : Table) (e : Nat)
  deriving DecidableEq

/-- Macro `gfasttm(g,et,e)`: `et` is `none` for a `NULL` pointer. -/
def gfasttm (_g : global_State) (et : Option Table) (e : Nat) : FastTM :=
  match et with
  | none => FastTM.null
  | some t => if (t.flags &&& shl32 1 e) != 0 then FastTM.null else FastTM.luaT_gettm t e

/-! ## lua.h / lobject.h / ltm.h: type names -/

def LUA_TNONE : Int := -1

/-- Macro `LUA_TOTALTYPES`: number of all possible types (including
`LUA_TNONE` but excluding `LUA_TDEADKEY`). -/
def LUA_TOTALTYPES : Nat := LUA_TPROTO + 2

/-- Macro `ttypename(x)`: `luaT_typenames_[(x) + 1]`.  The array
`luaT_typenames_`, which the header only declares (with `LUA_TOTALTYPES`
elements), is a parameter; an index outside the array gives `none`. -/
def ttypename (luaT_typenames_ : List String) (x : Int) : Option String :=
  if 0 ≤ x + 1 then luaT_typenames_[(x + 1).toNat]? else none

/-! ## lgc.h: collector parameters -/

def LUAI_GCPAUSE : Int := 200
def LUAI_GCMUL : Int := 100

/-- Macro `getgcparam(p)`: `((p) * 4)`, `p` being a `lu_byte`. -/
def getgcparam (p : Nat) : Int := (p : Int) * 4

/-- Macro `setgcparam(p,v)`: `((p) = (v) / 4)`; the result is the new content
of the `lu_byte` field `p`, the division being that of C on `int`. -/
def setgcparam (_p : Nat) (v : Int) : Nat := cast_byte (Int.tdiv v 4 % 256).toNat

/-! ## Bit-level facts about the 32-bit operations -/

theorem testBit_not32 (x j : Nat) :
    (not32 x).testBit j = (decide (j < 32) && !(x.testBit j)) := by
  have h : x % 4294967296 < 2 ^ 32 := Nat.mod_lt _ (by norm_num)
  have e : not32 x = 2 ^ 32 - (x % 4294967296 + 1) := by
    unfold not32; omega
  rw [e, Nat.testBit_two_pow_sub_succ h]
  have e2 : (4294967296 : Nat) = 2 ^ 32 := by norm_num
  rw [e2, Nat.testBit_mod_two_pow]
  cases decide (j < 32) <;> simp

theorem testBit_shl32 (x n j : Nat) :
    (shl32 x n).testBit j = (decide (j < 32) && (decide (n ≤ j) && x.testBit (j - n))) := by
  have e2 : (4294967296 : Nat) = 2 ^ 32 := by norm_num
  unfold shl32
  rw [e2, Nat.testBit_mod_two_pow, Nat.testBit_shiftLeft]

theorem testBit_shr32 (x n j : Nat) :
    (shr32 x n).testBit j = (decide (n + j < 32) && x.testBit (n + j)) := by
  have e2 : (4294967296 : Nat) = 2 ^ 32 := by norm_num
  unfold shr32
  rw [Nat.testBit_shiftRight, e2, Nat.testBit_mod_two_pow]

theorem testBit_MASK1 (n p j : Nat) :
    (MASK1 n p).testBit j = decide (j < 32 ∧ p ≤ j ∧ j - p < n) := by
  unfold MASK1
  simp only [testBit_shl32, testBit_not32, Nat.zero_testBit]
  by_cases h1 : j < 32 <;> by_cases h2 : p ≤ j <;> by_cases h3 : j - p < n <;>
    simp [h1, h2, h3] <;> omega

theorem testBit_MASK0 (n p j : Nat) :
    (MASK0 n p).testBit j = decide (j < 32 ∧ ¬ (p ≤ j ∧ j - p < n)) := by
  unfold MASK0
  rw [testBit_not32, testBit_MASK1]
  by_cases h1 : j < 32 <;> by_cases h2 : p ≤ j <;> by_cases h3 : j - p < n <;>
    simp [h1, h2, h3]

theorem testBit_word {i : Nat} (h : i < 4294967296) {j : Nat} (hj : 32 ≤ j) :
    i.testBit j = false := by
  apply Nat.testBit_lt_two_pow
  calc i < 2 ^ 32 := by simpa using h
    _ ≤ 2 ^ j := Nat.pow_le_pow_right (by norm_num) hj

theorem testBit_setarg (i : Nat) (v : Int) (pos size j : Nat) :
    (setarg i v pos size).testBit j =
      if j < 32 ∧ pos ≤ j ∧ j - pos < size then (castInstruction v).testBit (j - pos)
      else (decide (j < 32) && i.testBit j) := by
  unfold setarg
  simp only [Nat.testBit_or, Nat.testBit_and, testBit_MASK0, testBit_MASK1, testBit_shl32]
  by_cases h1 : j < 32 <;> by_cases h2 : pos ≤ j <;> by_cases h3 : j - pos < size <;>
    simp [h1, h2, h3]

theorem setarg_lt (i : Nat) (v : Int) (pos size : Nat) : setarg i v pos size < 4294967296 := by
  have e2 : (4294967296 : Nat) = 2 ^ 32 := by norm_num
  rw [e2]
  apply Nat.lt_pow_two_of_testBit
  intro j hj
  rw [testBit_setarg]
  have : ¬ j < 32 := by omega
  simp [this]

theorem testBit_field (i pos size j : Nat) :
    (shr32 i pos &&& MASK1 size 0).testBit j =
      (decide (pos + j < 32 ∧ j < size) && i.testBit (pos + j)) := by
  rw [Nat.testBit_and, testBit_shr32, testBit_MASK1]
  by_cases h1 : pos + j < 32 <;> by_cases h2 : j < size <;> simp [h1, h2]
  omega

theorem field_setarg (i : Nat) (v : Int) (pos size : Nat) (h : pos + size ≤ 32) :
    shr32 (setarg i v pos size) pos &&& MASK1 size 0 = castInstruction v % 2 ^ size := by
  apply Nat.eq_of_testBit_eq
  intro j
  rw [testBit_field, testBit_setarg, Nat.testBit_mod_two_pow]
  by_cases h2 : j < size
  · have h1 : pos + j < 32 := by omega
    have h3 : pos + j - pos < size := by omega
    simp [h1, h2, h3]
  · simp [h2]

theorem field_setarg_other (i : Nat) (v : Int) (pos size pos1 size1 : Nat)
    (h : pos1 + size1 ≤ pos ∨ pos + size ≤ pos1) :
    shr32 (setarg i v pos size) pos1 &&& MASK1 size1 0 = shr32 i pos1 &&& MASK1 size1 0 := by
  apply Nat.eq_of_testBit_eq
  intro j
  rw [testBit_field, testBit_field, testBit_setarg]
  by_cases h2 : j < size1
  · have h3 : ¬ (pos1 + j < 32 ∧ pos ≤ pos1 + j ∧ pos1 + j - pos < size) := by omega
    rw [if_neg h3]
    by_cases h1 : pos1 + j < 32 <;> simp [h1, h2]
  · simp [h2]

/-! ## Arithmetic form of the accessors -/

theorem cast_int_of_lt {x : Nat} (h : x < 2147483648) : cast_int x = (x : Int) := by
  unfold cast_int
  have e : x % 4294967296 = x := Nat.mod_eq_of_lt (by omega)
  rw [e, if_pos h]

theorem castInstruction_natCast (n : Nat) : castInstruction (n : Int) = n % 4294967296 := by
  unfold castInstruction
  omega

theorem castInstruction_mod (v : Int) (m : Nat) (hm : (m : Int) ∣ 4294967296) :
    ((castInstruction v % m : Nat) : Int) = v % (m : Int) := by
  unfold castInstruction
  have h0 : (0 : Int) ≤ v % 4294967296 := Int.emod_nonneg _ (by norm_num)
  rw [Int.natCast_mod, Int.toNat_of_nonneg h0, Int.emod_emod_of_dvd _ hm]

theorem MASK1_zero_pos (n : Nat) (h : n ≤ 32) : MASK1 n 0 = 2 ^ n - 1 := by
  apply Nat.eq_of_testBit_eq
  intro j
  rw [testBit_MASK1, Nat.testBit_two_pow_sub_one]
  by_cases hj : j < n <;> simp [hj]
  omega

theorem field_eq (i pos size : Nat) (h : size ≤ 32) :
    shr32 i pos &&& MASK1 size 0 = i % 4294967296 / 2 ^ pos % 2 ^ size := by
  rw [MASK1_zero_pos size h, Nat.and_pow_two_sub_one_eq_mod]
  unfold shr32
  rw [Nat.shiftRight_eq_div_pow]

theorem getarg_eq (i pos size : Nat) (h : size ≤ 31) :
    getarg i pos size = ((i % 4294967296 / 2 ^ pos % 2 ^ size : Nat) : Int) := by
  unfold getarg
  rw [field_eq i pos size (by omega)]
  apply cast_int_of_lt
  have h1 : i % 4294967296 / 2 ^ pos % 2 ^ size < 2 ^ size := Nat.mod_lt _ (Nat.two_pow_pos _)
  have h2 : 2 ^ size ≤ 2 ^ 31 := Nat.pow_le_pow_right (by norm_num) h
  omega

theorem shl32_cast (n p : Nat) (h : n * 2 ^ p < 4294967296) :
    shl32 (castInstruction (n : Int)) p = n * 2 ^ p := by
  have h1 : n < 4294967296 := lt_of_le_of_lt (Nat.le_mul_of_pos_right n (Nat.two_pow_pos p)) h
  unfold shl32
  rw [castInstruction_natCast, Nat.mod_eq_of_lt h1, Nat.shiftLeft_eq, Nat.mod_eq_of_lt h]

theorem or_mul_two_pow {x : Nat} {p : Nat} (h : x < 2 ^ p) (y : Nat) :
    x ||| y * 2 ^ p = x + y * 2 ^ p := by
  rw [Nat.or_comm, Nat.mul_comm y, ← Nat.mul_add_lt_is_or h, Nat.add_comm]

theorem and_two_pow (x p : Nat) : x &&& 2 ^ p = x / 2 ^ p % 2 * 2 ^ p := by
  apply Nat.eq_of_testBit_eq
  intro j
  rw [Nat.testBit_and, Nat.testBit_two_pow, Nat.mul_comm, Nat.testBit_mul_pow_two]
  have e : x / 2 ^ p % 2 = x / 2 ^ p % 2 ^ 1 := by norm_num
  rw [e, Nat.testBit_mod_two_pow, ← Nat.shiftRight_eq_div_pow, Nat.testBit_shiftRight]
  by_cases h : p = j
  · subst h; simp
  · by_cases h2 : p ≤ j
    · have : ¬ j - p < 1 := by omega
      simp [h, this]
    · simp [h, h2]

theorem CREATE_ABCk_eq (o a b c k : Nat) (ho : o ≤ 127) (ha : a ≤ 255) (hb : b ≤ 255)
    (hc : c ≤ 255) (hk : k ≤ 1) :
    CREATE_ABCk o a b c k = o + a * 128 + k * 32768 + b * 65536 + c * 16777216 := by
  unfold CREATE_ABCk
  simp only [POS_OP, POS_A, POS_k, POS_B, POS_C, SIZE_OP, SIZE_A, SIZE_B]
  rw [shl32_cast o _ (by omega), shl32_cast a _ (by omega), shl32_cast b _ (by omega),
    shl32_cast c _ (by omega), shl32_cast k _ (by omega)]
  have e : o * 2 ^ 0 ||| a * 2 ^ (0 + 7) ||| b * 2 ^ (0 + 7 + 8 + 1)
        ||| c * 2 ^ (0 + 7 + 8 + 1 + 8) ||| k * 2 ^ (0 + 7 + 8) =
      o ||| a * 2 ^ 7 ||| k * 2 ^ 15 ||| b * 2 ^ 16 ||| c * 2 ^ 24 := by
    norm_num
    ac_rfl
  rw [e, or_mul_two_pow (show o < 2 ^ 7 by omega),
    or_mul_two_pow (show o + a * 2 ^ 7 < 2 ^ 15 by omega),
    or_mul_two_pow (show o + a * 2 ^ 7 + k * 2 ^ 15 < 2 ^ 16 by omega),
    or_mul_two_pow (show o + a * 2 ^ 7 + k * 2 ^ 15 + b * 2 ^ 16 < 2 ^ 24 by omega)]
  norm_num

theorem CREATE_ABx_eq (o a bx : Nat) (ho : o ≤ 127) (ha : a ≤ 255) (hb : bx ≤ 131071) :
    CREATE_ABx o a bx = o + a * 128 + bx * 32768 := by
  unfold CREATE_ABx
  simp only [POS_OP, POS_A, POS_k, POS_Bx, SIZE_OP, SIZE_A]
  rw [shl32_cast o _ (by omega), shl32_cast a _ (by omega), shl32_cast bx _ (by omega)]
  have e : o * 2 ^ 0 ||| a * 2 ^ (0 + 7) ||| bx * 2 ^ (0 + 7 + 8) =
      o ||| a * 2 ^ 7 ||| bx * 2 ^ 15 := by
    norm_num
  rw [e, or_mul_two_pow (show o < 2 ^ 7 by omega),
    or_mul_two_pow (show o + a * 2 ^ 7 < 2 ^ 15 by omega)]
  norm_num

theorem CREATE_Ax_eq (o ax : Nat) (ho : o ≤ 127) (ha : ax ≤ 33554431) :
    CREATE_Ax o ax = o + ax * 128 := by
  unfold CREATE_Ax
  simp only [POS_OP, POS_A, POS_Ax, SIZE_OP]
  rw [shl32_cast o _ (by omega), shl32_cast ax _ (by omega)]
  have e : o * 2 ^ 0 ||| ax * 2 ^ (0 + 7) = o ||| ax * 2 ^ 7 := by
    norm_num
  rw [e, or_mul_two_pow (show o < 2 ^ 7 by omega)]
  norm_num

theorem GET_OPCODE_eq (i : Nat) : GET_OPCODE i = ((i % 4294967296 % 128 : Nat) : Int) := by
  have h := getarg_eq i POS_OP SIZE_OP (by decide)
  simpa [getarg, GET_OPCODE, POS_OP, SIZE_OP] using h

theorem GETARG_A_eq (i : Nat) : GETARG_A i = ((i % 4294967296 / 128 % 256 : Nat) : Int) := by
  have h := getarg_eq i POS_A SIZE_A (by decide)
  simpa [GETARG_A, POS_A, POS_OP, SIZE_OP, SIZE_A] using h

theorem GETARG_k_eq (i : Nat) : GETARG_k i = ((i % 4294967296 / 32768 % 2 : Nat) : Int) := by
  have h := getarg_eq i POS_k 1 (by decide)
  simpa [GETARG_k, POS_k, POS_A, POS_OP, SIZE_OP, SIZE_A] using h

theorem GETARG_B_eq (i : Nat) : GETARG_B i = ((i % 4294967296 / 65536 % 256 : Nat) : Int) := by
  have h := getarg_eq i POS_B SIZE_B (by decide)
  simpa [GETARG_B, POS_B, POS_k, POS_A, POS_OP, SIZE_OP, SIZE_A, SIZE_B] using h

theorem GETARG_C_eq (i : Nat) : GETARG_C i = ((i % 4294967296 / 16777216 % 256 : Nat) : Int) := by
  have h := getarg_eq i POS_C SIZE_C (by decide)
  simpa [GETARG_C, POS_C, POS_B, POS_k, POS_A, POS_OP, SIZE_OP, SIZE_A, SIZE_B, SIZE_C] using h

theorem GETARG_Bx_eq (i : Nat) :
    GETARG_Bx i = ((i % 4294967296 / 32768 % 131072 : Nat) : Int) := by
  have h := getarg_eq i POS_Bx SIZE_Bx (by decide)
  simpa [GETARG_Bx, POS_Bx, POS_k, POS_A, POS_OP, SIZE_OP, SIZE_A, SIZE_B, SIZE_C, SIZE_Bx] using h

theorem GETARG_Ax_eq (i : Nat) :
    GETARG_Ax i = ((i % 4294967296 / 128 % 33554432 : Nat) : Int) := by
  have h := getarg_eq i POS_Ax SIZE_Ax (by decide)
  simpa [GETARG_Ax, POS_Ax, POS_A, POS_OP, SIZE_OP, SIZE_A, SIZE_B, SIZE_C, SIZE_Bx, SIZE_Ax]
    using h

theorem TESTARG_k_eq (i : Nat) :
    TESTARG_k i = ((i / 32768 % 2 * 32768 : Nat) : Int) := by
  unfold TESTARG_k
  have e : shl32 1 POS_k = 2 ^ 15 := by decide
  rw [e, and_two_pow]
  norm_num
  apply cast_int_of_lt
  omega

theorem MAXARG_Bx_val : MAXARG_Bx = 131071 := by decide
theorem MAXARG_Ax_val : MAXARG_Ax = 33554431 := by decide
theorem MAXARG_sJ_val : MAXARG_sJ = 33554431 := by decide
theorem OFFSET_sBx_val : OFFSET_sBx = 65535 := by decide
theorem OFFSET_sJ_val : OFFSET_sJ = 16777215 := by decide
theorem OFFSET_sC_val : OFFSET_sC = 127 := by decide

theorem getarg_setarg (i : Nat) (v : Int) (pos size : Nat) (h : pos + size ≤ 32)
    (hs : size ≤ 31) :
    getarg (setarg i v pos size) pos size = v % ((2 ^ size : Nat) : Int) := by
  unfold getarg
  rw [field_setarg i v pos size h]
  have h1 : castInstruction v % 2 ^ size < 2 ^ size := Nat.mod_lt _ (Nat.two_pow_pos _)
  have h2 : 2 ^ size ≤ 2 ^ 31 := Nat.pow_le_pow_right (by norm_num) hs
  rw [cast_int_of_lt (by omega)]
  apply castInstruction_mod
  have e : ((4294967296 : Nat) : Int) = 4294967296 := by norm_num
  rw [← e, Int.natCast_dvd_natCast]
  have e2 : (4294967296 : Nat) = 2 ^ 32 := by norm_num
  rw [e2]
  exact Nat.pow_dvd_pow 2 (by omega)

theorem getarg_setarg_other (i : Nat) (v : Int) (pos size pos1 size1 : Nat)
    (h : pos1 + size1 ≤ pos ∨ pos + size ≤ pos1) :
    getarg (setarg i v pos size) pos1 size1 = getarg i pos1 size1 := by
  unfold getarg
  rw [field_setarg_other i v pos size pos1 size1 h]

theorem testBit_setarg_outside (i : Nat) (v : Int) (pos size j : Nat) (hi : i < 4294967296)
    (hj : ¬ (pos ≤ j ∧ j < pos + size)) :
    (setarg i v pos size).testBit j = i.testBit j := by
  rw [testBit_setarg]
  have h3 : ¬ (j < 32 ∧ pos ≤ j ∧ j - pos < size) := by omega
  rw [if_neg h3]
  by_cases h1 : j < 32
  · simp [h1]
  · simp [h1, testBit_word hi (Nat.le_of_not_lt h1)]

theorem GET_OPCODE_def (i : Nat) : GET_OPCODE i = getarg i POS_OP SIZE_OP := rfl
theorem SET_OPCODE_def (i : Nat) (o : Int) : SET_OPCODE i o = setarg i o POS_OP SIZE_OP := rfl

/-! ## Instruction encoding -/

/-- C1: encode-then-decode is the identity on instruction fields.  For an
opcode `o` in 0..127, operands `a`, `b`, `c` in 0..255 and a flag `k` in
{0,1}, the word `CREATE_ABCk(o,a,b,c,k)` decodes to `o`, `a`, `b`, `c`, `k`
and `TESTARG_k` of it is non-zero iff `k = 1`; `CREATE_ABx(o,a,bx)` decodes
to `o`, `a`, `bx` for `bx` in 0..MAXARG_Bx, and `CREATE_Ax(o,ax)` decodes to
`o`, `ax` for `ax` in 0..MAXARG_Ax. -/
theorem create_then_decode (o a b c k bx ax : Int)
    (ho : 0 ≤ o ∧ o ≤ 127) (ha : 0 ≤ a ∧ a ≤ 255) (hb : 0 ≤ b ∧ b ≤ 255)
    (hc : 0 ≤ c ∧ c ≤ 255) (hk : k = 0 ∨ k = 1)
    (hbx : 0 ≤ bx ∧ bx ≤ MAXARG_Bx) (hax : 0 ≤ ax ∧ ax ≤ MAXARG_Ax) :
    (GET_OPCODE (CREATE_ABCk o a b c k) = o ∧
      GETARG_A (CREATE_ABCk o a b c k) = a ∧
      GETARG_B (CREATE_ABCk o a b c k) = b ∧
      GETARG_C (CREATE_ABCk o a b c k) = c ∧
      GETARG_k (CREATE_ABCk o a b c k) = k ∧
      (TESTARG_k (CREATE_ABCk o a b c k) ≠ 0 ↔ k = 1)) ∧
    (GET_OPCODE (CREATE_ABx o a bx) = o ∧
      GETARG_A (CREATE_ABx o a bx) = a ∧
      GETARG_Bx (CREATE_ABx o a bx) = bx) ∧
    (GET_OPCODE (CREATE_Ax o ax) = o ∧
      GETARG_Ax (CREATE_Ax o ax) = ax) := by
  rw [MAXARG_Bx_val] at hbx
  rw [MAXARG_Ax_val] at hax
  obtain ⟨o, rfl⟩ := Int.eq_ofNat_of_zero_le ho.1
  obtain ⟨a, rfl⟩ := Int.eq_ofNat_of_zero_le ha.1
  obtain ⟨b, rfl⟩ := Int.eq_ofNat_of_zero_le hb.1
  obtain ⟨c, rfl⟩ := Int.eq_ofNat_of_zero_le hc.1
  obtain ⟨bx, rfl⟩ := Int.eq_ofNat_of_zero_le hbx.1
  obtain ⟨ax, rfl⟩ := Int.eq_ofNat_of_zero_le hax.1
  obtain ⟨k, rfl, hk1⟩ : ∃ n : Nat, k = (n : Int) ∧ n ≤ 1 := by
    rcases hk with h | h
    · exact ⟨0, by simpa using h, by omega⟩
    · exact ⟨1, by simpa using h, by omega⟩
  rw [CREATE_ABCk_eq o a b c k (by omega) (by omega) (by omega) (by omega) hk1,
    CREATE_ABx_eq o a bx (by omega) (by omega) (by omega),
    CREATE_Ax_eq o ax (by omega) (by omega)]
  simp only [GET_OPCODE_eq, GETARG_A_eq, GETARG_B_eq, GETARG_C_eq, GETARG_k_eq, GETARG_Bx_eq,
    GETARG_Ax_eq, TESTARG_k_eq]
  refine ⟨⟨?_, ?_, ?_, ?_, ?_, ?_⟩, ⟨?_, ?_, ?_⟩, ?_, ?_⟩ <;> omega

/-- Instance of `create_then_decode` at the largest field values. -/
theorem create_then_decode_witness :
    ((0 : Int) ≤ 127 ∧ (127 : Int) ≤ 127) ∧ ((0 : Int) ≤ 131071 ∧ (131071 : Int) ≤ MAXARG_Bx) ∧
    GET_OPCODE (CREATE_ABCk 127 255 255 255 1) = 127 ∧
    GETARG_A (CREATE_ABCk 127 255 255 255 1) = 255 ∧
    GETARG_B (CREATE_ABCk 127 255 255 255 1) = 255 ∧
    GETARG_C (CREATE_ABCk 127 255 255 255 1) = 255 ∧
    GETARG_k (CREATE_ABCk 127 255 255 255 1) = 1 ∧
    GETARG_Bx (CREATE_ABx 127 255 131071) = 131071 ∧
    GETARG_Ax (CREATE_Ax 127 33554431) = 33554431 :=
  have h := create_then_decode 127 255 255 255 1 131071 33554431 (by decide) (by decide)
    (by decide) (by decide) (by decide) (by decide) (by decide)
  ⟨by decide, by decide, h.1.1, h.1.2.1, h.1.2.2.1, h.1.2.2.2.1, h.1.2.2.2.2.1, h.2.1.2.2,
    h.2.2.2⟩

/-- C2: decode-then-encode is the identity on instruction words.  For every
32-bit instruction `i`, `CREATE_ABCk` of its opcode, A, B, C and k fields is
`i`; the five fields Op(7), A(8), k(1), B(8), C(8) are laid out one after
the other from bit 0 to bit 31, their masks are pairwise disjoint and
together cover all 32 bits. -/
theorem decode_then_create (i : Nat) (hi : i < 4294967296) :
    CREATE_ABCk (GET_OPCODE i) (GETARG_A i) (GETARG_B i) (GETARG_C i) (GETARG_k i) = i ∧
    SIZE_OP = 7 ∧ SIZE_A = 8 ∧ SIZE_B = 8 ∧ SIZE_C = 8 ∧
    POS_OP = 0 ∧ POS_A = POS_OP + SIZE_OP ∧ POS_k = POS_A + SIZE_A ∧ POS_B = POS_k + 1 ∧
    POS_C = POS_B + SIZE_B ∧ POS_C + SIZE_C = 32 ∧
    MASK1 SIZE_OP POS_OP &&& MASK1 SIZE_A POS_A = 0 ∧
    MASK1 SIZE_OP POS_OP &&& MASK1 1 POS_k = 0 ∧
    MASK1 SIZE_OP POS_OP &&& MASK1 SIZE_B POS_B = 0 ∧
    MASK1 SIZE_OP POS_OP &&& MASK1 SIZE_C POS_C = 0 ∧
    MASK1 SIZE_A POS_A &&& MASK1 1 POS_k = 0 ∧
    MASK1 SIZE_A POS_A &&& MASK1 SIZE_B POS_B = 0 ∧
    MASK1 SIZE_A POS_A &&& MASK1 SIZE_C POS_C = 0 ∧
    MASK1 1 POS_k &&& MASK1 SIZE_B POS_B = 0 ∧
    MASK1 1 POS_k &&& MASK1 SIZE_C POS_C = 0 ∧
    MASK1 SIZE_B POS_B &&& MASK1 SIZE_C POS_C = 0 ∧
    (MASK1 SIZE_OP POS_OP ||| MASK1 SIZE_A POS_A ||| MASK1 1 POS_k ||| MASK1 SIZE_B POS_B
      ||| MASK1 SIZE_C POS_C) = 4294967295 := by
  constructor
  · simp only [GET_OPCODE_eq, GETARG_A_eq, GETARG_B_eq, GETARG_C_eq, GETARG_k_eq]
    rw [CREATE_ABCk_eq _ _ _ _ _ (by omega) (by omega) (by omega) (by omega) (by omega)]
    omega
  · decide

/-- Instance of `decode_then_create` at the word 0x12345678. -/
theorem decode_then_create_witness :
    305419896 < 4294967296 ∧
    CREATE_ABCk (GET_OPCODE 305419896) (GETARG_A 305419896) (GETARG_B 305419896)
      (GETARG_C 305419896) (GETARG_k 305419896) = 305419896 :=
  ⟨by decide, (decode_then_create 305419896 (by decide)).1⟩

/-- C3: signed operands are stored in excess-K, K being half the unsigned
maximum (65535 for sBx, 16777215 for sJ, 127 for sC), and decoding inverts
encoding over the whole representable range: for every word `i`, every `b`
in -65535..65536 is read back by `GETARG_sBx` after `SETARG_sBx`, every `j`
in -16777215..16777216 is read back by `GETARG_sJ` after `SETARG_sJ`, and
for every integer `v`, `sC2int(int2sC(v)) = v`, with `int2sC(v)` inside
0..MAXARG_C exactly when `-127 ≤ v ≤ 128`. -/
theorem excess_K_roundtrip (i : Nat) (b j v : Int)
    (hb : -OFFSET_sBx ≤ b ∧ b ≤ MAXARG_Bx - OFFSET_sBx)
    (hj : -OFFSET_sJ ≤ j ∧ j ≤ MAXARG_sJ - OFFSET_sJ) :
    (OFFSET_sBx = MAXARG_Bx / 2 ∧ OFFSET_sJ = MAXARG_sJ / 2 ∧ OFFSET_sC = MAXARG_C / 2) ∧
    (-OFFSET_sBx = -65535 ∧ MAXARG_Bx - OFFSET_sBx = 65536) ∧
    (-OFFSET_sJ = -16777215 ∧ MAXARG_sJ - OFFSET_sJ = 16777216) ∧
    GETARG_sBx (SETARG_sBx i b) = b ∧
    GETARG_sJ (SETARG_sJ i j) = j ∧
    sC2int (int2sC v) = v ∧
    ((0 ≤ int2sC v ∧ int2sC v ≤ MAXARG_C) ↔ (-127 ≤ v ∧ v ≤ 128)) := by
  refine ⟨by decide, by decide, by decide, ?_, ?_, ?_, ?_⟩
  · rw [OFFSET_sBx_val, MAXARG_Bx_val] at hb
    unfold GETARG_sBx SETARG_sBx SETARG_Bx
    rw [getarg_setarg _ _ _ _ (by decide) (by decide), OFFSET_sBx_val]
    have e : ((2 ^ SIZE_Bx : Nat) : Int) = 131072 := by decide
    rw [e]
    unfold cast_uint
    omega
  · rw [OFFSET_sJ_val, MAXARG_sJ_val] at hj
    unfold GETARG_sJ SETARG_sJ
    rw [getarg_setarg _ _ _ _ (by decide) (by decide), OFFSET_sJ_val]
    have e : ((2 ^ SIZE_sJ : Nat) : Int) = 33554432 := by decide
    rw [e]
    unfold cast_uint
    omega
  · unfold sC2int int2sC
    omega
  · have e : MAXARG_C = 255 := by decide
    rw [e]
    unfold int2sC
    rw [OFFSET_sC_val]
    omega

/-- Instance of `excess_K_roundtrip` at the two ends of the ranges. -/
theorem excess_K_roundtrip_witness :
    (-OFFSET_sBx ≤ -65535 ∧ (-65535 : Int) ≤ MAXARG_Bx - OFFSET_sBx) ∧
    (-OFFSET_sJ ≤ 16777216 ∧ (16777216 : Int) ≤ MAXARG_sJ - OFFSET_sJ) ∧
    GETARG_sBx (SETARG_sBx 4294967295 (-65535)) = -65535 ∧
    GETARG_sJ (SETARG_sJ 4294967295 16777216) = 16777216 ∧
    sC2int (int2sC (-127)) = -127 :=
  have h := excess_K_roundtrip 4294967295 (-65535) 16777216 (-127) (by decide) (by decide)
  ⟨by decide, by decide, h.2.2.2.1, h.2.2.2.2.1, h.2.2.2.2.2.1⟩

/-- C4: each field setter writes only its own field.  For every 32-bit word
`i` and every integer `v`, after `SETARG_A`, `SETARG_B`, `SETARG_C`,
`SETARG_k`, `SETARG_Bx`, `SETARG_Ax` or `SET_OPCODE` the written field reads
back as `v` modulo 2^(field size), and every bit of `i` outside the field is
unchanged; in particular `SETARG_A/B/C/k` change neither `GET_OPCODE(i)` nor
any of the other three iABC operands. -/
theorem setters_write_own_field (i : Nat) (v : Int) (hi : i < 4294967296) :
    (GETARG_A (SETARG_A i v) = v % 256 ∧
      (∀ j, ¬ (POS_A ≤ j ∧ j < POS_A + SIZE_A) → (SETARG_A i v).testBit j = i.testBit j) ∧
      GET_OPCODE (SETARG_A i v) = GET_OPCODE i ∧ GETARG_B (SETARG_A i v) = GETARG_B i ∧
      GETARG_C (SETARG_A i v) = GETARG_C i ∧ GETARG_k (SETARG_A i v) = GETARG_k i) ∧
    (GETARG_B (SETARG_B i v) = v % 256 ∧
      (∀ j, ¬ (POS_B ≤ j ∧ j < POS_B + SIZE_B) → (SETARG_B i v).testBit j = i.testBit j) ∧
      GET_OPCODE (SETARG_B i v) = GET_OPCODE i ∧ GETARG_A (SETARG_B i v) = GETARG_A i ∧
      GETARG_C (SETARG_B i v) = GETARG_C i ∧ GETARG_k (SETARG_B i v) = GETARG_k i) ∧
    (GETARG_C (SETARG_C i v) = v % 256 ∧
      (∀ j, ¬ (POS_C ≤ j ∧ j < POS_C + SIZE_C) → (SETARG_C i v).testBit j = i.testBit j) ∧
      GET_OPCODE (SETARG_C i v) = GET_OPCODE i ∧ GETARG_A (SETARG_C i v) = GETARG_A i ∧
      GETARG_B (SETARG_C i v) = GETARG_B i ∧ GETARG_k (SETARG_C i v) = GETARG_k i) ∧
    (GETARG_k (SETARG_k i v) = v % 2 ∧
      (∀ j, ¬ (POS_k ≤ j ∧ j < POS_k + 1) → (SETARG_k i v).testBit j = i.testBit j) ∧
      GET_OPCODE (SETARG_k i v) = GET_OPCODE i ∧ GETARG_A (SETARG_k i v) = GETARG_A i ∧
      GETARG_B (SETARG_k i v) = GETARG_B i ∧ GETARG_C (SETARG_k i v) = GETARG_C i) ∧
    (GETARG_Bx (SETARG_Bx i v) = v % 131072 ∧
      (∀ j, ¬ (POS_Bx ≤ j ∧ j < POS_Bx + SIZE_Bx) → (SETARG_Bx i v).testBit j = i.testBit j)) ∧
    (GETARG_Ax (SETARG_Ax i v) = v % 33554432 ∧
      (∀ j, ¬ (POS_Ax ≤ j ∧ j < POS_Ax + SIZE_Ax) → (SETARG_Ax i v).testBit j = i.testBit j)) ∧
    (GET_OPCODE (SET_OPCODE i v) = v % 128 ∧
      (∀ j, ¬ (POS_OP ≤ j ∧ j < POS_OP + SIZE_OP) → (SET_OPCODE i v).testBit j = i.testBit j)) := by
  simp only [GET_OPCODE_def, SET_OPCODE_def, GETARG_A, SETARG_A, GETARG_B, SETARG_B, GETARG_C,
    SETARG_C, GETARG_k, SETARG_k, GETARG_Bx, SETARG_Bx, GETARG_Ax, SETARG_Ax]
  have frame : ∀ pos size j, ¬ (pos ≤ j ∧ j < pos + size) →
      (setarg i v pos size).testBit j = i.testBit j :=
    fun pos size j hj => testBit_setarg_outside i v pos size j hi hj
  have rb : ∀ pos size, pos + size ≤ 32 → size ≤ 31 →
      getarg (setarg i v pos size) pos size = v % ((2 ^ size : Nat) : Int) :=
    fun pos size h hs => getarg_setarg i v pos size h hs
  have other : ∀ pos size pos1 size1, (pos1 + size1 ≤ pos ∨ pos + size ≤ pos1) →
      getarg (setarg i v pos size) pos1 size1 = getarg i pos1 size1 :=
    fun pos size pos1 size1 h => getarg_setarg_other i v pos size pos1 size1 h
  refine ⟨⟨?_, frame _ _, ?_, ?_, ?_, ?_⟩, ⟨?_, frame _ _, ?_, ?_, ?_, ?_⟩,
    ⟨?_, frame _ _, ?_, ?_, ?_, ?_⟩, ⟨?_, frame _ _, ?_, ?_, ?_, ?_⟩,
    ⟨?_, frame _ _⟩, ⟨?_, frame _ _⟩, ⟨?_, frame _ _⟩⟩
  any_goals (exact other _ _ _ _ (by decide))
  all_goals (rw [rb _ _ (by decide) (by decide)]; rfl)

/-- Instance of `setters_write_own_field`: writing 511, which does not fit
in 8 bits, into field A of the word 0x12345678. -/
theorem setters_write_own_field_witness :
    305419896 < 4294967296 ∧
    GETARG_A (SETARG_A 305419896 511) = 255 ∧
    GET_OPCODE (SETARG_A 305419896 511) = GET_OPCODE 305419896 ∧
    GETARG_B (SETARG_A 305419896 511) = GETARG_B 305419896 ∧
    GETARG_C (SETARG_A 305419896 511) = GETARG_C 305419896 ∧
    GETARG_k (SETARG_A 305419896 511) = GETARG_k 305419896 ∧
    (SETARG_A 305419896 511).testBit 15 = Nat.testBit 305419896 15 :=
  have h := setters_write_own_field 305419896 511 (by decide)
  ⟨by decide, h.1.1, h.1.2.2.1, h.1.2.2.2.1, h.1.2.2.2.2.1, h.1.2.2.2.2.2,
    h.1.2.1 15 (by decide)⟩

/-- C5: the five formats overlay the same 32 bits.  For every instruction
word `i`, the 17-bit Bx field is `GETARG_k(i) + 2*GETARG_B(i) +
512*GETARG_C(i)`, the 25-bit Ax field is `GETARG_A(i) + 256*GETARG_Bx(i)`,
and the raw sJ field has the position and size of Ax, hence the same
value. -/
theorem format_overlay (i : Nat) :
    GETARG_Bx i = GETARG_k i + 2 * GETARG_B i + 512 * GETARG_C i ∧
    GETARG_Ax i = GETARG_A i + 256 * GETARG_Bx i ∧
    SIZE_Bx = 17 ∧ SIZE_Ax = 25 ∧
    POS_sJ = POS_Ax ∧ SIZE_sJ = SIZE_Ax ∧
    getarg i POS_sJ SIZE_sJ = GETARG_Ax i ∧
    GETARG_sJ i + OFFSET_sJ = GETARG_Ax i := by
  refine ⟨?_, ?_, rfl, rfl, rfl, rfl, rfl, ?_⟩
  · simp only [GETARG_A_eq, GETARG_B_eq, GETARG_C_eq, GETARG_k_eq, GETARG_Bx_eq]
    omega
  · simp only [GETARG_A_eq, GETARG_Bx_eq, GETARG_Ax_eq]
    omega
  · have e : getarg i POS_sJ SIZE_sJ = GETARG_Ax i := rfl
    rw [GETARG_sJ, e]
    omega

/-! ## Tagged values -/

/-- C6: the tag byte decomposes as documented (bits 0-3 base type, bits 4-5
variant, bit 6 collectable).  For every base type `t` in 0..15 and variant
`v` in 0..3: `novariant(makevariant(t,v)) = t`,
`withvariant(ctb(makevariant(t,v))) = makevariant(t,v)`,
`novariant(ctb(makevariant(t,v))) = t`, bits 4-5 of `makevariant(t,v)` are
`v`, `makevariant(t,v)` has bit 6 clear and `ctb(makevariant(t,v))` has bit
6 set. -/
theorem tag_byte_layout (t v : Nat) (ht : t ≤ 15) (hv : v ≤ 3) :
    novariant (makevariant t v) = t ∧
    withvariant (ctb (makevariant t v)) = makevariant t v ∧
    novariant (ctb (makevariant t v)) = t ∧
    (makevariant t v) >>> 4 = v ∧
    (makevariant t v).testBit 6 = false ∧
    (ctb (makevariant t v)).testBit 6 = true ∧
    makevariant t v &&& BIT_ISCOLLECTABLE = 0 ∧
    ctb (makevariant t v) &&& BIT_ISCOLLECTABLE ≠ 0 := by
  interval_cases t <;> interval_cases v <;> decide

/-- Instance of `tag_byte_layout` at the C-closure tag (`LUA_TFUNCTION`, variant 2). -/
theorem tag_byte_layout_witness :
    LUA_TFUNCTION ≤ 15 ∧ 2 ≤ 3 ∧
    novariant LUA_VCCL = LUA_TFUNCTION ∧
    withvariant (ctb LUA_VCCL) = LUA_VCCL ∧
    novariant (ctb LUA_VCCL) = LUA_TFUNCTION :=
  have h := tag_byte_layout LUA_TFUNCTION 2 (by decide) (by decide)
  ⟨by decide, by decide, h.1, h.2.1, h.2.2.1⟩

/-- C7: `setobj(L,obj1,obj2)` is an in-place overwrite of one slot.
Afterwards the tag and payload of `obj1` are those `obj2` had, `obj2` is
unchanged, every other slot is unchanged and so is all other state
(`checkliveness` and `lua_assert` are no-ops with assertions disabled);
`setobjs2s`, `setobj2s`, `setobjt2t`, `setobj2n` and `setobj2t` are the same
overwrite. -/
theorem setobj_overwrites_one_slot {σ : Type} (L : Nat) (s : Store σ) (obj1 obj2 : Nat) :
    (setobj L s obj1 obj2).tv obj1 = s.tv obj2 ∧
    (setobj L s obj1 obj2).tv obj2 = s.tv obj2 ∧
    (∀ a, a ≠ obj1 → (setobj L s obj1 obj2).tv a = s.tv a) ∧
    (setobj L s obj1 obj2).delta = s.delta ∧
    (setobj L s obj1 obj2).rest = s.rest ∧
    setobjs2s L s obj1 obj2 = setobj L s obj1 obj2 ∧
    setobj2s L s obj1 obj2 = setobj L s obj1 obj2 ∧
    setobjt2t L s obj1 obj2 = setobj L s obj1 obj2 ∧
    setobj2n L s obj1 obj2 = setobj L s obj1 obj2 ∧
    setobj2t L s obj1 obj2 = setobj L s obj1 obj2 := by
  have h1 : (setobj L s obj1 obj2).tv obj1 = s.tv obj2 := by
    simp only [setobj, Store.set_value_, Store.settt_, if_true]
    by_cases h : obj2 = obj1
    · simp [h]
    · simp [h]
  have h3 : ∀ a, a ≠ obj1 → (setobj L s obj1 obj2).tv a = s.tv a := by
    intro a ha
    simp [setobj, Store.set_value_, Store.settt_, ha]
  refine ⟨h1, ?_, h3, rfl, rfl, rfl, rfl, rfl, rfl, rfl⟩
  by_cases h : obj2 = obj1
  · rw [h] at h1 ⊢; exact h1
  · exact h3 obj2 h

/-! ## Hash nodes -/

/-- C8: marking a key dead keeps the node findable.  For every hash node
`n`, `setdeadkey(n)` changes only the key tag, to `LUA_TDEADKEY`; the key
payload, the value of the node (tag and payload) and its chain link `next`
are unchanged; afterwards `keyisdead(n)` holds and `keyisnil(n)` does not;
and `LUA_TDEADKEY` differs from every variant tag, with or without the
collectable bit. -/
theorem setdeadkey_keeps_node (n : Node) :
    setdeadkey n = { n with key_tt := LUA_TDEADKEY } ∧
    (setdeadkey n).key_tt = LUA_TDEADKEY ∧
    (setdeadkey n).key_val = n.key_val ∧
    (setdeadkey n).value_ = n.value_ ∧
    (setdeadkey n).tt_ = n.tt_ ∧
    gval (setdeadkey n) = gval n ∧
    gnext (setdeadkey n) = gnext n ∧
    keyisdead (setdeadkey n) = true ∧
    keyisnil (setdeadkey n) = false ∧
    (∀ t v, t ≤ LUA_TPROTO → v ≤ 3 →
      makevariant t v ≠ LUA_TDEADKEY ∧ ctb (makevariant t v) ≠ LUA_TDEADKEY) ∧
    (∀ x ∈ [LUA_VNIL, LUA_VEMPTY, LUA_VABSTKEY, LUA_VFALSE, LUA_VTRUE, LUA_VTHREAD,
        LUA_VNUMINT, LUA_VNUMFLT, LUA_VSHRSTR, LUA_VLNGSTR, LUA_VLIGHTUSERDATA,
        LUA_VUSERDATA, LUA_VPROTO, LUA_VUPVAL, LUA_VLCL, LUA_VLCF, LUA_VCCL, LUA_VTABLE],
      x ≠ LUA_TDEADKEY ∧ ctb x ≠ LUA_TDEADKEY) := by
  refine ⟨rfl, rfl, rfl, rfl, rfl, rfl, rfl, ?_, ?_, ?_, by decide⟩
  · simp [keyisdead, keytt, setdeadkey]
  · simp [keyisnil, keytt, setdeadkey, LUA_TDEADKEY, LUA_TNIL, LUA_NUMTYPES]
  · intro t v ht hv
    have ht2 : t ≤ 10 := ht
    interval_cases t <;> interval_cases v <;> decide

/-! ## Collector colours and states -/

set_option maxRecDepth 100000 in
theorem marked_byte_cases : ∀ m, m < 256 →
    ((m &&& (8 ^^^ 24) ≠ 0 ↔ m.testBit 4 = true) ∧
    (m &&& (16 ^^^ 24) ≠ 0 ↔ m.testBit 3 = true) ∧
    (m &&& 24 = (8 &&& 24) % 256 → m &&& (8 ^^^ 24) = 0) ∧
    (m &&& 24 = (16 &&& 24) % 256 → m &&& (16 ^^^ 24) = 0) ∧
    (m &&& 24 = 0 → m &&& (8 ^^^ 24) = 0 ∧ m &&& (16 ^^^ 24) = 0) ∧
    (((m &&& (24 ||| 32)) == 0) = true → m &&& (8 ^^^ 24) = 0 ∧ m &&& (16 ^^^ 24) = 0)) := by
  decide

/-- C9: only objects of the non-current white are dead.  For every global
state `g` whose `currentwhite` is exactly one white bit and every object `o`
(its `marked` a byte), `isdead(g,o)` is non-zero iff the other white bit of
`marked` is set; hence an object whose white bits equal `luaC_white(g)`, and
every object with no white bit set (gray or black), is not dead, whatever
its other bits. -/
theorem isdead_iff_other_white (g : global_State) (o : GCObject)
    (hg : g.currentwhite = bitmask WHITE0BIT ∨ g.currentwhite = bitmask WHITE1BIT)
    (hm : o.marked < 256) :
    (g.currentwhite = bitmask WHITE0BIT →
      (isdead g o ≠ 0 ↔ o.marked.testBit WHITE1BIT = true)) ∧
    (g.currentwhite = bitmask WHITE1BIT →
      (isdead g o ≠ 0 ↔ o.marked.testBit WHITE0BIT = true)) ∧
    (o.marked &&& WHITEBITS = luaC_white g → isdead g o = 0) ∧
    (iswhite o = 0 → isdead g o = 0) ∧
    (isgray o = true → isdead g o = 0) ∧
    (isblack o ≠ 0 → iswhite o = 0 → isdead g o = 0) := by
  obtain ⟨cw, gs⟩ := g
  obtain ⟨nx, tt, m⟩ := o
  simp only at hg hm
  have e8 : bitmask WHITE0BIT = 8 := by decide
  have e16 : bitmask WHITE1BIT = 16 := by decide
  have ew : WHITEBITS = 24 := by decide
  have eb : bitmask BLACKBIT = 32 := by decide
  obtain ⟨k1, k2, k3, k4, k5, k6⟩ := marked_byte_cases m hm
  simp only [isdead, isdeadm, otherwhite, iswhite, isgray, isblack, testbits, testbit, luaC_white,
    cast_byte, e8, e16, ew, eb, WHITE0BIT, WHITE1BIT] at hg ⊢
  rcases hg with h | h <;> subst h
  · refine ⟨fun _ => k1, fun h => absurd h (by decide), k3, fun h => (k5 h).1,
      fun h => (k6 h).1, fun _ h => (k5 h).1⟩
  · refine ⟨fun h => absurd h (by decide), fun _ => k2, k4, fun h => (k5 h).2,
      fun h => (k6 h).2, fun _ h => (k5 h).2⟩

/-- Instance of `isdead_iff_other_white`: with white 0 current, an old,
finalized object of white 1 is dead. -/
theorem isdead_iff_other_white_witness :
    ((8 : Nat) = bitmask WHITE0BIT ∨ (8 : Nat) = bitmask WHITE1BIT) ∧ (84 : Nat) < 256 ∧
    (isdead { currentwhite := 8, gcstate := GCSpropagate } { next := 0, tt := 5, marked := 84 } ≠ 0
      ↔ Nat.testBit 84 WHITE1BIT = true) :=
  ⟨by decide, by decide,
    (isdead_iff_other_white { currentwhite := 8, gcstate := GCSpropagate }
      { next := 0, tt := 5, marked := 84 } (by decide) (by decide)).1 (by decide)⟩

/-- C10, as stated, fails: in the states `GCScallfin` and `GCSpause` the
collector is outside the sweep phase and `keepinvariant` is false. -/
theorem keepinvariant_false_outside_sweep :
    issweepphase { currentwhite := 8, gcstate := GCScallfin } = false ∧
    keepinvariant { currentwhite := 8, gcstate := GCScallfin } = false ∧
    issweepphase { currentwhite := 8, gcstate := GCSpause } = false ∧
    keepinvariant { currentwhite := 8, gcstate := GCSpause } = false := by
  decide

/-- C10, amended: for every collector state among the nine `GCS*` states,
when `g` is outside the sweep phase, `keepinvariant(g)` is true iff the
state is neither `GCScallfin` nor `GCSpause`. -/
theorem keepinvariant_outside_sweep (g : global_State) (hs : g.gcstate ≤ GCSpause)
    (hsw : issweepphase g = false) :
    keepinvariant g = true ↔ (g.gcstate ≠ GCScallfin ∧ g.gcstate ≠ GCSpause) := by
  obtain ⟨cw, st⟩ := g
  simp only [issweepphase, keepinvariant, GCSpause, GCScallfin, GCSswpallgc, GCSswpend,
    GCSatomic, Bool.and_eq_false_iff, decide_eq_false_iff_not, decide_eq_true_eq] at hs hsw ⊢
  omega

/-- Instance of `keepinvariant_outside_sweep` at the state `GCSatomic`. -/
theorem keepinvariant_outside_sweep_witness :
    GCSatomic ≤ GCSpause ∧
    issweepphase { currentwhite := 8, gcstate := GCSatomic } = false ∧
    keepinvariant { currentwhite := 8, gcstate := GCSatomic } = true :=
  ⟨by decide, by decide,
    (keepinvariant_outside_sweep { currentwhite := 8, gcstate := GCSatomic } (by decide)
      (by decide)).2 (by decide)⟩

/-! ## Write barriers -/
/-- C11: the write barriers fire exactly on a black-to-white store.
`luaC_barrier(L,p,v)` calls `luaC_barrier_` iff the tag of `v` has the
collectable bit, `p` is black and the object of `v` is white, and otherwise
does nothing; `luaC_barrierback(L,p,v)` calls `luaC_barrierback_`, passing
only the container `p`, under the same condition; `luaC_objbarrier(L,p,o)`
calls `luaC_barrier_` iff `p` is black and `o` is white.  No barrier fires
when the parent is not black (white or gray, the three colours being
exclusive), or when the stored value is non-collectable or not white (gray
or black). -/
theorem barriers_fire_on_black_to_white (heap : Nat → GCObject) (L p o : Nat) (v : TValue) :
    (luaC_barrier heap L p v = some (BarrierCall.luaC_barrier_ L (obj2gco p) (gcvalue v)) ↔
      (iscollectable v ≠ 0 ∧ isblack (heap p) ≠ 0 ∧ iswhite (heap (gcvalue v)) ≠ 0)) ∧
    (¬ (iscollectable v ≠ 0 ∧ isblack (heap p) ≠ 0 ∧ iswhite (heap (gcvalue v)) ≠ 0) →
      luaC_barrier heap L p v = none) ∧
    (luaC_barrierback heap L p v = some (BarrierCall.luaC_barrierback_ L p) ↔
      (iscollectable v ≠ 0 ∧ isblack (heap p) ≠ 0 ∧ iswhite (heap (gcvalue v)) ≠ 0)) ∧
    (¬ (iscollectable v ≠ 0 ∧ isblack (heap p) ≠ 0 ∧ iswhite (heap (gcvalue v)) ≠ 0) →
      luaC_barrierback heap L p v = none) ∧
    (luaC_objbarrier heap L p o = some (BarrierCall.luaC_barrier_ L (obj2gco p) (obj2gco o)) ↔
      (isblack (heap p) ≠ 0 ∧ iswhite (heap o) ≠ 0)) ∧
    (¬ (isblack (heap p) ≠ 0 ∧ iswhite (heap o) ≠ 0) → luaC_objbarrier heap L p o = none) ∧
    (isblack (heap p) = 0 →
      luaC_barrier heap L p v = none ∧ luaC_barrierback heap L p v = none ∧
      luaC_objbarrier heap L p o = none) ∧
    (isgray (heap p) = true →
      luaC_barrier heap L p v = none ∧ luaC_barrierback heap L p v = none ∧
      luaC_objbarrier heap L p o = none) ∧
    (iscollectable v = 0 →
      luaC_barrier heap L p v = none ∧ luaC_barrierback heap L p v = none) ∧
    (iswhite (heap (gcvalue v)) = 0 →
      luaC_barrier heap L p v = none ∧ luaC_barrierback heap L p v = none) ∧
    (iswhite (heap o) = 0 → luaC_objbarrier heap L p o = none) := by
  have gray_not_black : isgray (heap p) = true → isblack (heap p) = 0 := by
    intro h
    simp only [isgray, testbits, beq_iff_eq] at h
    simp only [isblack, testbit, testbits]
    apply Nat.eq_of_testBit_eq
    intro j
    have hj := congrArg (fun x => Nat.testBit x j) h
    simp only [Nat.testBit_and, Nat.testBit_or, Nat.zero_testBit] at hj ⊢
    cases hb : (bitmask BLACKBIT).testBit j <;> simp [hb] at hj ⊢
    exact hj
  simp only [luaC_barrier, luaC_barrierback, luaC_objbarrier, bne_iff_ne, Bool.and_eq_true,
    ne_eq, decide_eq_true_eq]
  refine ⟨?_, ?_, ?_, ?_, ?_, ?_, ?_, ?_, ?_, ?_, ?_⟩
  · constructor
    · intro h; by_contra hc; simp [hc] at h
    · intro h; simp [h]
  · intro h; exact if_neg (fun hc => h ⟨hc.1.1, hc.1.2, hc.2⟩)
  · constructor
    · intro h; by_contra hc; simp [hc] at h
    · intro h; simp [h]
  · intro h; exact if_neg (fun hc => h ⟨hc.1.1, hc.1.2, hc.2⟩)
  · constructor
    · intro h; by_contra hc; simp [hc] at h
    · intro h; simp [h]
  · intro h; exact if_neg h
  · intro h; simp [h]
  · intro h; simp [gray_not_black h]
  · intro h; simp [h]
  · intro h; simp [h]
  · intro h; simp [h]

/-! ## Integer arithmetic through `intop` -/

theorem two_pow_int_pos (w : Nat) : (0 : Int) < 2 ^ w := by positivity

theorem two_pow_pred_double (w : Nat) (hw : 0 < w) : (2 : Int) ^ w = 2 * 2 ^ (w - 1) := by
  obtain ⟨k, rfl⟩ : ∃ k, w = k + 1 := ⟨w - 1, by omega⟩
  simp [pow_succ, mul_comm]

theorem l_castS2U_cast (w : Nat) (i : Int) : ((l_castS2U w i : Nat) : Int) = i % 2 ^ w := by
  unfold l_castS2U
  exact Int.toNat_of_nonneg (Int.emod_nonneg _ (ne_of_gt (two_pow_int_pos w)))

theorem l_castS2U_lt (w : Nat) (i : Int) : l_castS2U w i < 2 ^ w := by
  have h := Int.emod_lt_of_pos i (two_pow_int_pos w)
  rw [← l_castS2U_cast] at h
  exact_mod_cast h

theorem l_castU2S_emod (w : Nat) (u : Nat) : l_castU2S w u % 2 ^ w = (u : Int) % 2 ^ w := by
  unfold l_castU2S
  split
  · push_cast
    exact Int.emod_emod_of_dvd _ (dvd_refl _)
  · push_cast
    rw [Int.sub_emod, Int.emod_self, sub_zero, Int.emod_emod_of_dvd _ (dvd_refl _),
      Int.emod_emod_of_dvd _ (dvd_refl _)]

theorem l_castU2S_range (w : Nat) (hw : 0 < w) (u : Nat) :
    LUA_MININTEGER w ≤ l_castU2S w u ∧ l_castU2S w u ≤ LUA_MAXINTEGER w := by
  have hM := two_pow_pred_double w hw
  have hlt : ((u % 2 ^ w : Nat) : Int) < 2 ^ w := by
    have := Nat.mod_lt u (Nat.two_pow_pos w)
    exact_mod_cast this
  have h0 : (0 : Int) ≤ ((u % 2 ^ w : Nat) : Int) := Int.natCast_nonneg _
  have hH : (0 : Int) < 2 ^ (w - 1) := two_pow_int_pos _
  unfold l_castU2S LUA_MININTEGER LUA_MAXINTEGER
  split
  · rename_i h
    have h' : ((u % 2 ^ w : Nat) : Int) < 2 ^ (w - 1) := by exact_mod_cast h
    constructor <;> omega
  · rename_i h
    have h' : ¬ ((u % 2 ^ w : Nat) : Int) < 2 ^ (w - 1) := by
      intro hc; apply h; exact_mod_cast hc
    constructor <;> omega

theorem in_range_unique (w : Nat) (hw : 0 < w) (r s : Int)
    (hr : LUA_MININTEGER w ≤ r ∧ r ≤ LUA_MAXINTEGER w)
    (hs : LUA_MININTEGER w ≤ s ∧ s ≤ LUA_MAXINTEGER w)
    (h : r % 2 ^ w = s % 2 ^ w) : r = s := by
  have hM := two_pow_pred_double w hw
  unfold LUA_MININTEGER LUA_MAXINTEGER at hr hs
  have hd : (2 : Int) ^ w ∣ r - s := Int.dvd_of_emod_eq_zero (by
    rw [Int.sub_emod, h, sub_self, Int.zero_emod])
  have habs : |r - s| < 2 ^ w := by
    rw [abs_lt]; constructor <;> omega
  have := Int.eq_zero_of_abs_lt_dvd hd habs
  omega

theorem l_castU2S_l_castS2U (w : Nat) (hw : 0 < w) (i : Int)
    (hi : LUA_MININTEGER w ≤ i ∧ i ≤ LUA_MAXINTEGER w) : l_castU2S w (l_castS2U w i) = i := by
  apply in_range_unique w hw _ _ (l_castU2S_range w hw _) hi
  rw [l_castU2S_emod, l_castS2U_cast]
  exact Int.emod_emod_of_dvd _ (dvd_refl _)

theorem l_castS2U_l_castU2S (w : Nat) (u : Nat) (hu : u < 2 ^ w) :
    l_castS2U w (l_castU2S w u) = u := by
  have h : ((l_castS2U w (l_castU2S w u) : Nat) : Int) = (u : Int) := by
    rw [l_castS2U_cast, l_castU2S_emod]
    have : ((u : Int)) < 2 ^ w := by exact_mod_cast hu
    exact Int.emod_eq_of_lt (Int.natCast_nonneg _) this
  exact_mod_cast h


theorem testBit_l_castS2U (w : Nat) (x : Int) (j : Nat) :
    (l_castS2U w x).testBit j = (decide (j < w) && x.testBit j) := by
  unfold l_castS2U
  cases x with
  | ofNat n =>
    have e : (Int.ofNat n % 2 ^ w).toNat = n % 2 ^ w := by
      have : (Int.ofNat n % 2 ^ w) = ((n % 2 ^ w : Nat) : Int) := by
        push_cast; rfl
      rw [this, Int.toNat_natCast]
    rw [e, Nat.testBit_mod_two_pow]
    rfl
  | negSucc n =>
    have hlt : n % 2 ^ w < 2 ^ w := Nat.mod_lt _ (Nat.two_pow_pos w)
    have e : (Int.negSucc n % 2 ^ w).toNat = 2 ^ w - (n % 2 ^ w + 1) := by
      rw [Int.negSucc_emod n (two_pow_int_pos w)]
      have h1 : ((2 : Int) ^ w - 1 - (n : Int) % 2 ^ w) = ((2 ^ w - (n % 2 ^ w + 1) : Nat) : Int) := by
        rw [Nat.cast_sub (by omega)]
        push_cast
        ring
      rw [h1, Int.toNat_natCast]
    rw [e, Nat.testBit_two_pow_sub_succ hlt, Nat.testBit_mod_two_pow]
    have e2 : (Int.negSucc n).testBit j = !(n.testBit j) := rfl
    rw [e2]
    cases decide (j < w) <;> simp

theorem l_castS2U_land (w : Nat) (a b : Int) :
    l_castS2U w a &&& l_castS2U w b = l_castS2U w (Int.land a b) := by
  apply Nat.eq_of_testBit_eq
  intro j
  rw [Nat.testBit_and, testBit_l_castS2U, testBit_l_castS2U, testBit_l_castS2U, Int.testBit_land]
  cases decide (j < w) <;> simp

theorem l_castS2U_lor (w : Nat) (a b : Int) :
    l_castS2U w a ||| l_castS2U w b = l_castS2U w (Int.lor a b) := by
  apply Nat.eq_of_testBit_eq
  intro j
  rw [Nat.testBit_or, testBit_l_castS2U, testBit_l_castS2U, testBit_l_castS2U, Int.testBit_lor]
  cases decide (j < w) <;> simp

theorem l_castS2U_xor (w : Nat) (a b : Int) :
    l_castS2U w a ^^^ l_castS2U w b = l_castS2U w (Int.xor a b) := by
  apply Nat.eq_of_testBit_eq
  intro j
  rw [Nat.testBit_xor, testBit_l_castS2U, testBit_l_castS2U, testBit_l_castS2U, Int.testBit_lxor]
  cases decide (j < w) <;> simp

theorem unsignedOp_emod (w : Nat) (op : ArithOp) (a b : Int) :
    ((op.unsignedOp w (l_castS2U w a) (l_castS2U w b) : Nat) : Int) % 2 ^ w
      = op.onInt a b % 2 ^ w := by
  have hpos := two_pow_int_pos w
  have hne : (2 : Int) ^ w ≠ 0 := ne_of_gt hpos
  cases op with
  | add =>
    simp only [ArithOp.unsignedOp, ArithOp.onInt]
    push_cast
    rw [l_castS2U_cast, l_castS2U_cast, Int.emod_emod_of_dvd _ (dvd_refl _), ← Int.add_emod]
  | sub =>
    simp only [ArithOp.unsignedOp, ArithOp.onInt]
    rw [Int.toNat_of_nonneg (Int.emod_nonneg _ hne), l_castS2U_cast, l_castS2U_cast,
      Int.emod_emod_of_dvd _ (dvd_refl _), ← Int.sub_emod]
  | mul =>
    simp only [ArithOp.unsignedOp, ArithOp.onInt]
    push_cast
    rw [l_castS2U_cast, l_castS2U_cast, Int.emod_emod_of_dvd _ (dvd_refl _), ← Int.mul_emod]
  | band =>
    simp only [ArithOp.unsignedOp, ArithOp.onInt]
    rw [l_castS2U_land, l_castS2U_cast, Int.emod_emod_of_dvd _ (dvd_refl _)]
  | bor =>
    simp only [ArithOp.unsignedOp, ArithOp.onInt]
    rw [l_castS2U_lor, l_castS2U_cast, Int.emod_emod_of_dvd _ (dvd_refl _)]
  | bxor =>
    simp only [ArithOp.unsignedOp, ArithOp.onInt]
    rw [l_castS2U_xor, l_castS2U_cast, Int.emod_emod_of_dvd _ (dvd_refl _)]

/-- C12: integer operations through `intop` yield an integer by
twos-complement wraparound.  For a `lua_Integer` of `w` bits and `op` among
`+ - * & | ^`, `intop(op,a,b)` lies in `[LUA_MININTEGER, LUA_MAXINTEGER]`, is
congruent to `a op b` modulo `2^w`, and is the only such value; the casts are
mutually inverse: `l_castU2S(l_castS2U(i)) = i` for every `lua_Integer` `i`
and `l_castS2U(l_castU2S(u)) = u` for every `lua_Unsigned` `u`. -/
theorem intop_wraps (w : Nat) (hw : 0 < w) (op : ArithOp) (a b i : Int) (u : Nat)
    (hi : LUA_MININTEGER w ≤ i ∧ i ≤ LUA_MAXINTEGER w) (hu : u ≤ LUA_MAXUNSIGNED w) :
    (LUA_MININTEGER w ≤ intop w op a b ∧ intop w op a b ≤ LUA_MAXINTEGER w) ∧
    intop w op a b % 2 ^ w = op.onInt a b % 2 ^ w ∧
    (∀ r : Int, LUA_MININTEGER w ≤ r → r ≤ LUA_MAXINTEGER w →
      r % 2 ^ w = op.onInt a b % 2 ^ w → r = intop w op a b) ∧
    l_castU2S w (l_castS2U w i) = i ∧
    l_castS2U w (l_castU2S w u) = u := by
  have hcong : intop w op a b % 2 ^ w = op.onInt a b % 2 ^ w := by
    unfold intop
    rw [l_castU2S_emod, unsignedOp_emod]
  have hrange := l_castU2S_range w hw (op.unsignedOp w (l_castS2U w a) (l_castS2U w b))
  refine ⟨hrange, hcong, ?_, l_castU2S_l_castS2U w hw i hi, ?_⟩
  · intro r h1 h2 h3
    exact in_range_unique w hw r _ ⟨h1, h2⟩ hrange (h3.trans hcong.symm)
  · apply l_castS2U_l_castU2S
    have := Nat.two_pow_pos w
    unfold LUA_MAXUNSIGNED at hu
    omega

/-- Instance of `intop_wraps` at 64 bits: `LUA_MAXINTEGER + 1` wraps to
`LUA_MININTEGER`. -/
theorem intop_wraps_witness :
    0 < 64 ∧ (LUA_MININTEGER 64 ≤ -1 ∧ -1 ≤ LUA_MAXINTEGER 64) ∧
    18446744073709551615 ≤ LUA_MAXUNSIGNED 64 ∧
    intop 64 ArithOp.add 9223372036854775807 1 = -9223372036854775808 ∧
    l_castU2S 64 (l_castS2U 64 (-1)) = -1 ∧
    l_castS2U 64 (l_castU2S 64 18446744073709551615) = 18446744073709551615 :=
  have h := intop_wraps 64 (by decide) ArithOp.add 9223372036854775807 1 (-1)
    18446744073709551615 (by decide) (by decide)
  ⟨by decide, by decide, by decide,
    (h.2.2.1 (-9223372036854775808) (by decide) (by decide) (by decide)).symm,
    h.2.2.2.1, h.2.2.2.2⟩

/-! ## Floats, modelled exactly -/

theorem truncate_intCast (z : Int) : truncate (z : ℚ) = z := by
  unfold truncate
  split
  · exact Int.floor_intCast z
  · exact Int.ceil_intCast z

theorem LUA_MININTEGER_cast (w : Nat) : ((LUA_MININTEGER w : Int) : ℚ) = -(2 : ℚ) ^ (w - 1) := by
  unfold LUA_MININTEGER
  push_cast
  rfl

/-- C13: `lua_numbertointeger` accepts exactly the integral values inside
the integer range.  With the number modelled exactly, for every `n` with an
integral value `z`, `lua_numbertointeger(n,p)` returns 1 and stores `z` in
`*p` iff `LUA_MININTEGER ≤ z ≤ LUA_MAXINTEGER`, which is the test
`n >= MININTEGER` and `n < -MININTEGER`; otherwise it returns 0 and leaves
`*p` as it was. -/
theorem lua_numbertointeger_accepts_range (w : Nat) (n : ℚ) (z p : Int)
    (hz : n = (z : ℚ)) :
    (lua_numbertointeger w n p = (1, z) ↔ (LUA_MININTEGER w ≤ z ∧ z ≤ LUA_MAXINTEGER w)) ∧
    (¬ (LUA_MININTEGER w ≤ z ∧ z ≤ LUA_MAXINTEGER w) → lua_numbertointeger w n p = (0, p)) ∧
    ((LUA_MININTEGER w ≤ z ∧ z ≤ LUA_MAXINTEGER w) ↔
      ((LUA_MININTEGER w : ℚ) ≤ n ∧ n < -(LUA_MININTEGER w : ℚ))) := by
  subst hz
  have key : ((LUA_MININTEGER w : ℚ) ≤ (z : ℚ) ∧ (z : ℚ) < -(LUA_MININTEGER w : ℚ)) ↔
      (LUA_MININTEGER w ≤ z ∧ z ≤ LUA_MAXINTEGER w) := by
    have e : -((LUA_MININTEGER w : Int) : ℚ) = ((-(LUA_MININTEGER w) : Int) : ℚ) := by push_cast; rfl
    rw [e, Int.cast_le, Int.cast_lt]
    unfold LUA_MININTEGER LUA_MAXINTEGER
    constructor <;> intro h <;> constructor <;> omega
  unfold lua_numbertointeger
  refine ⟨?_, ?_, key.symm⟩
  · by_cases h : (LUA_MININTEGER w ≤ z ∧ z ≤ LUA_MAXINTEGER w)
    · simp only [if_pos (key.mpr h), truncate_intCast, h, and_self]
    · have hn := (not_congr key).mpr h
      rw [if_neg hn]
      simp [h]
  · intro h
    rw [if_neg ((not_congr key).mpr h)]

/-- Instance of `lua_numbertointeger_accepts_range` at 64 bits: the float
`2^53` is accepted. -/
theorem lua_numbertointeger_accepts_range_witness :
    (9007199254740992 : ℚ) = ((9007199254740992 : Int) : ℚ) ∧
    lua_numbertointeger 64 9007199254740992 0 = (1, 9007199254740992) :=
  ⟨by norm_num,
    (lua_numbertointeger_accepts_range 64 9007199254740992 9007199254740992 0
      (by norm_num)).1.mpr (by decide)⟩

theorem floor_mod_form (a b : ℚ) (hb : b ≠ 0) :
    a - (⌊a / b⌋ : ℚ) * b = Int.fract (a / b) * b := by
  have hq : a = a / b * b := (div_mul_cancel₀ a hb).symm
  rw [Int.fract]
  nth_rewrite 1 [hq]
  ring

theorem nummod_no_fix (m b f : ℚ) (hm : m = f * b) (hf : 0 ≤ f) :
    ¬ (if m > 0 then b < 0 else (m < 0 ∧ b > 0)) := by
  subst hm
  split_ifs with h1
  · intro hb
    have := mul_nonneg hf (neg_pos.mpr hb).le
    linarith
  · rintro ⟨h2, h3⟩
    have := mul_nonneg hf h3.le
    linarith

theorem nummod_fix (m b g : ℚ) (hm : m = -(g * b)) (hg : 0 < g) (hb : b ≠ 0) :
    (if m > 0 then b < 0 else (m < 0 ∧ b > 0)) := by
  rcases lt_or_gt_of_ne hb with hneg | hpos
  · have h1 : m > 0 := by
      have := mul_pos hg (neg_pos.mpr hneg)
      linarith
    rw [if_pos h1]
    exact hneg
  · have h1 : m < 0 := by
      have := mul_pos hg hpos
      linarith
    rw [if_neg (by linarith)]
    exact ⟨h1, hpos⟩

theorem luai_nummod_eq (a b : ℚ) (hb : b ≠ 0) :
    luai_nummod a b = a - (⌊a / b⌋ : ℚ) * b := by
  have hf0 := Int.fract_nonneg (a / b)
  have hf1 := Int.fract_lt_one (a / b)
  have hR := floor_mod_form a b hb
  unfold luai_nummod fmod truncate
  by_cases hq0 : 0 ≤ a / b
  · simp only [if_pos hq0]
    rw [if_neg (nummod_no_fix _ b _ hR hf0)]
  · simp only [if_neg hq0]
    rcases Int.fract_eq_zero_or_add_one_sub_ceil (a / b) with h0 | h1
    · have hfl : a / b = (⌊a / b⌋ : ℚ) := by
        have := Int.self_sub_floor (a / b)
        linarith
      have hc : (⌈a / b⌉ : ℚ) = (⌊a / b⌋ : ℚ) := by
        rw [hfl, Int.ceil_intCast, Int.floor_intCast]
      rw [hc, if_neg (nummod_no_fix _ b _ hR hf0)]
    · have hc : (⌈a / b⌉ : ℚ) = (⌊a / b⌋ : ℚ) + 1 := by
        have := Int.self_sub_floor (a / b)
        linarith
      have hg : 0 < 1 - Int.fract (a / b) := by linarith
      have hm : a - (⌈a / b⌉ : ℚ) * b = -((1 - Int.fract (a / b)) * b) := by
        rw [hc]
        linear_combination hR
      rw [if_pos (nummod_fix _ b _ hm hg hb), hc]
      ring

/-- C14: `luai_nummod` computes the floored modulo.  Over exact arithmetic,
with `fmod(a,b) = a - trunc(a/b)*b`, for every `a` and every `b ≠ 0` the
result `m` of `luai_nummod(L,a,b,m)` is `a - floor(a/b)*b`; hence `m` is zero
or has the sign of `b`, and `|m| < |b|`. -/
theorem luai_nummod_floored (a b : ℚ) (hb : b ≠ 0) :
    luai_nummod a b = a - (⌊a / b⌋ : ℚ) * b ∧
    (luai_nummod a b = 0 ∨ (0 < luai_nummod a b ∧ 0 < b) ∨ (luai_nummod a b < 0 ∧ b < 0)) ∧
    |luai_nummod a b| < |b| := by
  have hf0 := Int.fract_nonneg (a / b)
  have hf1 := Int.fract_lt_one (a / b)
  have hm : luai_nummod a b = Int.fract (a / b) * b := by
    rw [luai_nummod_eq a b hb, floor_mod_form a b hb]
  refine ⟨luai_nummod_eq a b hb, ?_, ?_⟩
  · rw [hm]
    rcases eq_or_lt_of_le hf0 with h0 | hpos
    · left; rw [← h0, zero_mul]
    · right
      rcases lt_or_gt_of_ne hb with hneg | hbpos
      · right; exact ⟨mul_neg_of_pos_of_neg hpos hneg, hneg⟩
      · left; exact ⟨mul_pos hpos hbpos, hbpos⟩
  · rw [hm, abs_mul, abs_of_nonneg hf0]
    have hbabs : 0 < |b| := abs_pos.mpr hb
    calc Int.fract (a / b) * |b| < 1 * |b| := mul_lt_mul_of_pos_right hf1 hbabs
      _ = |b| := one_mul _

/-- Instance of `luai_nummod_floored`: `-7 mod 2`, where `fmod` gives `-1`
and the correction applies. -/
theorem luai_nummod_floored_witness :
    (2 : ℚ) ≠ 0 ∧ luai_nummod (-7) 2 = -7 - ((⌊(-7 : ℚ) / 2⌋ : Int) : ℚ) * 2 ∧
    |luai_nummod (-7) 2| < |(2 : ℚ)| :=
  have h := luai_nummod_floored (-7) 2 (by norm_num)
  ⟨by norm_num, h.1, h.2.2⟩

/-! ## The integer fast path of tables -/

theorem emod_of_neg_range (M k : Int) (h1 : -M ≤ k) (h2 : k < 0) : k % M = k + M := by
  have h : (k + M) % M = k % M := Int.add_emod_self
  rw [← h]
  exact Int.emod_eq_of_lt (by omega) (by omega)

theorem fastgeti_guard_iff (w : Nat) (hw : 33 ≤ w) (k : Int) (alimit : Nat)
    (hk : LUA_MININTEGER w ≤ k ∧ k ≤ LUA_MAXINTEGER w) (ha : alimit ≤ UINT_MAX) :
    fastgeti_guard w k alimit = true ↔ (1 ≤ k ∧ k ≤ (alimit : Int)) := by
  have hM := two_pow_pred_double w (by omega)
  have hH : (2 : Int) ^ 32 ≤ 2 ^ (w - 1) := pow_le_pow_right₀ (by norm_num) (by omega)
  have hH' : (4294967296 : Int) ≤ 2 ^ (w - 1) := by norm_num at hH; exact hH
  have hU : UINT_MAX = 4294967295 := rfl
  rw [hU] at ha
  unfold LUA_MININTEGER LUA_MAXINTEGER at hk
  unfold fastgeti_guard
  rw [decide_eq_true_eq, l_castS2U_cast]
  have hnn : (0 : Int) ≤ (k % 2 ^ w - 1) % 2 ^ w :=
    Int.emod_nonneg _ (ne_of_gt (two_pow_int_pos w))
  rw [Int.toNat_lt hnn]
  rcases lt_trichotomy k 0 with hneg | hzero | hpos
  · have e1 : k % 2 ^ w = k + 2 ^ w := emod_of_neg_range (2 ^ w) k (by omega) hneg
    have e2 : (k + 2 ^ w - 1) % 2 ^ w = k + 2 ^ w - 1 :=
      Int.emod_eq_of_lt (by omega) (by omega)
    rw [e1, e2]
    omega
  · subst hzero
    have e2 : ((0 : Int) - 1) % 2 ^ w = 0 - 1 + 2 ^ w :=
      emod_of_neg_range (2 ^ w) (0 - 1) (by omega) (by omega)
    rw [Int.zero_emod, e2]
    omega
  · have e1 : k % 2 ^ w = k := Int.emod_eq_of_lt (by omega) (by omega)
    have e2 : (k - 1) % 2 ^ w = k - 1 := Int.emod_eq_of_lt (by omega) (by omega)
    rw [e1, e2]
    omega

/-- C15: the array fast path of `luaV_fastgeti` is taken exactly for keys
`1..alimit`.  For a `lua_Integer` wider than `unsigned int` (64 bits in this
header), every `lua_Integer` `k` and every `unsigned int` `alimit`, the guard
`l_castS2U(k) - 1u < alimit` holds iff `1 ≤ k ≤ alimit`, so the index `k-1`
then used satisfies `0 ≤ k-1 < alimit`; `k = 0`, every negative `k` and
`LUA_MININTEGER` never take the array path. -/
theorem fastgeti_array_path (w : Nat) (hw : 33 ≤ w) (tables : Nat → Table) (t : TValue)
    (k : Int) (alimit : Nat)
    (hk : LUA_MININTEGER w ≤ k ∧ k ≤ LUA_MAXINTEGER w) (ha : alimit ≤ UINT_MAX)
    (ht : ttistable t = true) (hal : (tables (gcvalue t)).alimit = alimit) :
    (fastgeti_guard w k alimit = true ↔ (1 ≤ k ∧ k ≤ (alimit : Int))) ∧
    (fastgeti_guard w k alimit = true → 0 ≤ k - 1 ∧ k - 1 < (alimit : Int)) ∧
    (k ≤ 0 → fastgeti_guard w k alimit = false) ∧
    fastgeti_guard w 0 alimit = false ∧
    fastgeti_guard w (LUA_MININTEGER w) alimit = false ∧
    (luaV_fastgeti w tables t k = SlotSource.array (gcvalue t) (k - 1) ↔
      (1 ≤ k ∧ k ≤ (alimit : Int))) ∧
    (¬ (1 ≤ k ∧ k ≤ (alimit : Int)) →
      luaV_fastgeti w tables t k = SlotSource.luaH_getint (gcvalue t) k) := by
  have hiff := fastgeti_guard_iff w hw k alimit hk ha
  have hM := two_pow_pred_double w (by omega)
  have hH : (0 : Int) < 2 ^ (w - 1) := two_pow_int_pos _
  have hfalse : ∀ k', LUA_MININTEGER w ≤ k' ∧ k' ≤ LUA_MAXINTEGER w → k' ≤ 0 →
      fastgeti_guard w k' alimit = false := by
    intro k' hk' hle
    rw [← Bool.not_eq_true, fastgeti_guard_iff w hw k' alimit hk' ha]
    omega
  refine ⟨hiff, ?_, hfalse k hk, ?_, ?_, ?_, ?_⟩
  · intro h
    have := hiff.mp h
    omega
  · apply hfalse 0 _ (le_refl 0)
    unfold LUA_MININTEGER LUA_MAXINTEGER
    omega
  · apply hfalse
    · unfold LUA_MININTEGER LUA_MAXINTEGER
      omega
    · unfold LUA_MININTEGER
      omega
  · unfold luaV_fastgeti
    rw [ht, hal]
    by_cases hg : fastgeti_guard w k alimit = true
    · simp [hg, hiff.mp hg]
    · have hn : ¬ (1 ≤ k ∧ k ≤ (alimit : Int)) := fun h => hg (hiff.mpr h)
      simp [hg, hn]
  · intro hn
    have hg : ¬ fastgeti_guard w k alimit = true := fun h => hn (hiff.mp h)
    unfold luaV_fastgeti
    rw [ht, hal]
    simp [hg]

/-- Instance of `fastgeti_array_path` at 64 bits: key 4 in a table whose
`alimit` is 4. -/
theorem fastgeti_array_path_witness :
    33 ≤ 64 ∧ (LUA_MININTEGER 64 ≤ 4 ∧ 4 ≤ LUA_MAXINTEGER 64) ∧ 4 ≤ UINT_MAX ∧
    ttistable { value_ := { bits := 0 }, tt_ := ctb LUA_VTABLE } = true ∧
    fastgeti_guard 64 4 4 = true ∧
    fastgeti_guard 64 (-1) 4 = false :=
  have h := fastgeti_array_path 64 (by decide)
    (fun _ => { next := 0, tt := LUA_VTABLE, marked := 0, flags := 0, lsizenode := 0,
                alimit := 4, array := 0, node := 0, lastfree := 0, metatable := 0,
                gclist := 0 })
    { value_ := { bits := 0 }, tt_ := ctb LUA_VTABLE } 4 4 (by decide) (by decide)
    (by decide) rfl
  have h2 := fastgeti_array_path 64 (by decide)
    (fun _ => { next := 0, tt := LUA_VTABLE, marked := 0, flags := 0, lsizenode := 0,
                alimit := 4, array := 0, node := 0, lastfree := 0, metatable := 0,
                gclist := 0 })
    { value_ := { bits := 0 }, tt_ := ctb LUA_VTABLE } (-1) 4 (by decide) (by decide)
    (by decide) rfl
  ⟨by decide, by decide, by decide, by decide, h.1.mpr (by decide), h2.2.2.1 (by decide)⟩

/-! ## Threads: saved stack references and the call counter -/

/-- C16: saved stack references are offsets that survive reallocation.  For
every stack base and every pointer `p`, `restorestack(L, savestack(L,p)) =
p`; and if the base moves from that of `L` to that of `L1` between the save
and the restore, `restorestack` yields the new base plus `p` minus the old
base, the slot at the same byte offset in the new stack. -/
theorem savestack_restorestack (L L1 : lua_State) (p : Int) :
    restorestack L (savestack L p) = p ∧
    restorestack L1 (savestack L p) = L1.stack + (p - L.stack) ∧
    restorestack L1 (savestack L p) - L1.stack = p - L.stack := by
  refine ⟨?_, ?_, ?_⟩ <;> simp only [restorestack, savestack] <;> omega

theorem and_high_half (x : Nat) (hx : x < 4294967296) :
    x &&& 0xffff0000 = x / 65536 * 65536 := by
  have e : (0xffff0000 : Nat) = MASK1 16 16 := by decide
  have e2 : (65536 : Nat) = 2 ^ 16 := by norm_num
  rw [e, e2, ← Nat.shiftRight_eq_div_pow, ← Nat.shiftLeft_eq]
  apply Nat.eq_of_testBit_eq
  intro j
  rw [Nat.testBit_and, testBit_MASK1, Nat.testBit_shiftLeft, Nat.testBit_shiftRight]
  by_cases h1 : 16 ≤ j
  · by_cases h2 : j < 32
    · have h3 : j - 16 < 16 := by omega
      have h4 : 16 + (j - 16) = j := by omega
      simp [h1, h2, h3, h4]
    · have h4 : 16 + (j - 16) = j := by omega
      simp [h1, h2, h4, testBit_word hx (Nat.le_of_not_lt h2)]
  · simp [h1]

theorem and_low_half (x : Nat) : x &&& 0xffff = x % 65536 := by
  have e : (0xffff : Nat) = 2 ^ 16 - 1 := by norm_num
  rw [e, Nat.and_pow_two_sub_one_eq_mod]

/-- C17: `nCcalls` packs two independent 16-bit counters.  For every 32-bit
value of `nCcalls`, `getCcalls` is its low half and `yieldable(L)` holds iff
its high half is zero; `incnny` and `decnny` leave `getCcalls` unchanged and
are mutually inverse; when the non-yieldable count is below 0xFFFF,
`yieldable(L)` is false after `incnny`; and adding `nyci` increases both
counters by exactly one when neither half is at 0xFFFF. -/
theorem nCcalls_two_counters (L : lua_State) (hx : L.nCcalls < 4294967296) :
    getCcalls L = L.nCcalls % 65536 ∧
    (yieldable L = true ↔ L.nCcalls / 65536 = 0) ∧
    getCcalls (incnny L) = getCcalls L ∧
    getCcalls (decnny L) = getCcalls L ∧
    decnny (incnny L) = L ∧
    incnny (decnny L) = L ∧
    (L.nCcalls / 65536 < 0xFFFF →
      yieldable (incnny L) = false ∧
      (incnny L).nCcalls / 65536 = L.nCcalls / 65536 + 1) ∧
    (L.nCcalls / 65536 ≠ 0xFFFF → L.nCcalls % 65536 ≠ 0xFFFF →
      ((L.nCcalls + nyci) % 4294967296) % 65536 = L.nCcalls % 65536 + 1 ∧
      ((L.nCcalls + nyci) % 4294967296) / 65536 = L.nCcalls / 65536 + 1) ∧
    nyci = 65537 ∧ LUAI_MAXCCALLS ≤ 0xFFFF := by
  obtain ⟨st, x⟩ := L
  simp only at hx
  have hinc : (x + 65536) % 4294967296 < 4294967296 := Nat.mod_lt _ (by norm_num)
  have hdec : (((x : Int) - 65536) % 4294967296).toNat < 4294967296 := by omega
  refine ⟨?_, ?_, ?_, ?_, ?_, ?_, ?_, ?_, by decide, by decide⟩
  · simp only [getCcalls, and_low_half]
  · simp only [yieldable, beq_iff_eq, and_high_half x hx]
    omega
  · simp only [getCcalls, incnny, and_low_half]
    omega
  · simp only [getCcalls, decnny, and_low_half]
    omega
  · simp only [incnny, decnny, lua_State.mk.injEq, true_and]
    omega
  · simp only [incnny, decnny, lua_State.mk.injEq, true_and]
    omega
  · intro h
    simp only [yieldable, incnny, and_high_half _ hinc] at h ⊢
    constructor
    · rw [beq_eq_false_iff_ne]
      omega
    · omega
  · intro h1 h2
    have e : nyci = 65537 := by decide
    rw [e]
    simp only at h1 h2 ⊢
    omega

/-- Instance of `nCcalls_two_counters` at `nCcalls = 0x00020003`. -/
theorem nCcalls_two_counters_witness :
    131075 < 4294967296 ∧
    getCcalls { stack := 0, nCcalls := 131075 } = 3 ∧
    yieldable (incnny { stack := 0, nCcalls := 131075 }) = false ∧
    decnny (incnny { stack := 0, nCcalls := 131075 }) = { stack := 0, nCcalls := 131075 } :=
  have h := nCcalls_two_counters { stack := 0, nCcalls := 131075 } (by decide)
  ⟨by decide, h.1, (h.2.2.2.2.2.2.1 (by decide)).1, h.2.2.2.2.1⟩

/-! ## Pseudo-indices and result counts -/

/-- C18: pseudo-indices lie below every valid stack index and never collide.
`LUA_REGISTRYINDEX < -LUAI_MAXSTACK`, the minimum valid index, and for all
`i`, `j` in `1..MAXUPVAL`, `lua_upvalueindex(i) < LUA_REGISTRYINDEX` and
`lua_upvalueindex(i) = lua_upvalueindex(j)` only if `i = j`; all these values
are representable in a 32-bit `int`. -/
theorem pseudo_indices_below_stack (i j : Int) (hi : 1 ≤ i ∧ i ≤ MAXUPVAL)
    (hj : 1 ≤ j ∧ j ≤ MAXUPVAL) :
    LUA_REGISTRYINDEX < -LUAI_MAXSTACK ∧
    lua_upvalueindex i < LUA_REGISTRYINDEX ∧
    lua_upvalueindex j < LUA_REGISTRYINDEX ∧
    (lua_upvalueindex i = lua_upvalueindex j → i = j) ∧
    lua_upvalueindex i ≠ LUA_REGISTRYINDEX ∧
    (-MAX_INT - 1 ≤ LUA_REGISTRYINDEX ∧ LUA_REGISTRYINDEX ≤ MAX_INT) ∧
    (-MAX_INT - 1 ≤ -LUAI_MAXSTACK ∧ -LUAI_MAXSTACK ≤ MAX_INT) ∧
    (-MAX_INT - 1 ≤ lua_upvalueindex i ∧ lua_upvalueindex i ≤ MAX_INT) := by
  have e1 : LUAI_MAXSTACK = 1000000 := by decide
  have e2 : MAXUPVAL = 255 := rfl
  have e3 : MAX_INT = 2147483647 := rfl
  rw [e2] at hi hj
  simp only [lua_upvalueindex, LUA_REGISTRYINDEX, e1, e3]
  omega

/-- Instance of `pseudo_indices_below_stack` at the first and last upvalue. -/
theorem pseudo_indices_below_stack_witness :
    ((1 : Int) ≤ 1 ∧ (1 : Int) ≤ MAXUPVAL) ∧ ((1 : Int) ≤ 255 ∧ (255 : Int) ≤ MAXUPVAL) ∧
    LUA_REGISTRYINDEX = -1001000 ∧
    lua_upvalueindex 1 < LUA_REGISTRYINDEX ∧
    lua_upvalueindex 255 < LUA_REGISTRYINDEX ∧
    -MAX_INT - 1 ≤ lua_upvalueindex 255 :=
  have h := pseudo_indices_below_stack 255 1 (by decide) (by decide)
  ⟨by decide, by decide, by decide, h.2.2.1, h.2.1, h.2.2.2.2.2.2.2.1⟩

/-- C20: the operator enumerations are aligned (ORDER OP, ORDER TM).  For
every operator X among ADD, SUB, MUL, MOD, POW, DIV, IDIV, BAND, BOR, BXOR,
SHL, SHR: `OPR_X = LUA_OPX`, `TM_X = TM_ADD + LUA_OPX` and `OP_X = OP_ADD +
LUA_OPX`; for UNM and BNOT, `TM_X = TM_ADD + LUA_OPX`; and for the ten
operators ADD..BXOR, `OP_XK = OP_ADDK + LUA_OPX`. -/
theorem operator_enums_aligned :
    (∀ q ∈ [(LUA_OPADD, BinOpr.OPR_ADD, TMS.TM_ADD, OpCode.OP_ADD),
        (LUA_OPSUB, BinOpr.OPR_SUB, TMS.TM_SUB, OpCode.OP_SUB),
        (LUA_OPMUL, BinOpr.OPR_MUL, TMS.TM_MUL, OpCode.OP_MUL),
        (LUA_OPMOD, BinOpr.OPR_MOD, TMS.TM_MOD, OpCode.OP_MOD),
        (LUA_OPPOW, BinOpr.OPR_POW, TMS.TM_POW, OpCode.OP_POW),
        (LUA_OPDIV, BinOpr.OPR_DIV, TMS.TM_DIV, OpCode.OP_DIV),
        (LUA_OPIDIV, BinOpr.OPR_IDIV, TMS.TM_IDIV, OpCode.OP_IDIV),
        (LUA_OPBAND, BinOpr.OPR_BAND, TMS.TM_BAND, OpCode.OP_BAND),
        (LUA_OPBOR, BinOpr.OPR_BOR, TMS.TM_BOR, OpCode.OP_BOR),
        (LUA_OPBXOR, BinOpr.OPR_BXOR, TMS.TM_BXOR, OpCode.OP_BXOR),
        (LUA_OPSHL, BinOpr.OPR_SHL, TMS.TM_SHL, OpCode.OP_SHL),
        (LUA_OPSHR, BinOpr.OPR_SHR, TMS.TM_SHR, OpCode.OP_SHR)],
      q.2.1.toCtorIdx = q.1 ∧
      q.2.2.1.toCtorIdx = TMS.TM_ADD.toCtorIdx + q.1 ∧
      q.2.2.2.toCtorIdx = OpCode.OP_ADD.toCtorIdx + q.1) ∧
    TMS.TM_UNM.toCtorIdx = TMS.TM_ADD.toCtorIdx + LUA_OPUNM ∧
    TMS.TM_BNOT.toCtorIdx = TMS.TM_ADD.toCtorIdx + LUA_OPBNOT ∧
    (∀ q ∈ [(LUA_OPADD, OpCode.OP_ADDK), (LUA_OPSUB, OpCode.OP_SUBK),
        (LUA_OPMUL, OpCode.OP_MULK), (LUA_OPMOD, OpCode.OP_MODK),
        (LUA_OPPOW, OpCode.OP_POWK), (LUA_OPDIV, OpCode.OP_DIVK),
        (LUA_OPIDIV, OpCode.OP_IDIVK), (LUA_OPBAND, OpCode.OP_BANDK),
        (LUA_OPBOR, OpCode.OP_BORK), (LUA_OPBXOR, OpCode.OP_BXORK)],
      q.2.toCtorIdx = OpCode.OP_ADDK.toCtorIdx + q.1) := by
  decide

/-! ## The opcode tables -/

/-- C21: the opcode tables follow the `OpCode` enumeration.  `NUM_OPCODES` is
83, at most `2^SIZE_OP`; `opnames` has exactly `NUM_OPCODES` names followed by
a single `NULL`; `disptab` has exactly `NUM_OPCODES` entries; and for every
opcode value `i` below `NUM_OPCODES`, `opnames[i]` is the identifier of the
enumeration constant of value `i` without its `OP_` prefix and `disptab[i]`
is the label `L_` followed by that identifier. -/
theorem opcode_tables_follow_enum :
    NUM_OPCODES = 83 ∧ NUM_OPCODES ≤ 2 ^ SIZE_OP ∧
    opnames.length = NUM_OPCODES + 1 ∧
    opnames[NUM_OPCODES]? = some none ∧
    (∀ i, i < NUM_OPCODES → ∃ s, opnames[i]? = some (some s)) ∧
    disptab.length = NUM_OPCODES ∧
    (∀ i, i < NUM_OPCODES →
      (OpCode.ofNat i).toCtorIdx = i ∧
      opnames[i]? = some (some ((OpCode.ofNat i).cname.drop 3)) ∧
      (OpCode.ofNat i).cname.take 3 = "OP_" ∧
      disptab[i]? = some ("L_" ++ (OpCode.ofNat i).cname)) := by
  refine ⟨by decide, by decide, by decide, by decide, ?_, by decide, by decide⟩
  have h : ∀ i, i < NUM_OPCODES →
      opnames[i]? = some (some ((OpCode.ofNat i).cname.drop 3)) := by decide
  intro i hi
  exact ⟨_, h i hi⟩

/-! ## Collector phases and ages -/

/-- C22: the phase predicates select contiguous, disjoint ranges of
collector states.  `keepinvariant(g)` holds iff `gcstate` is `GCSpropagate`,
`GCSenteratomic` or `GCSatomic`; `issweepphase(g)` holds iff `gcstate` is
`GCSswpallgc`, `GCSswpfinobj`, `GCSswptobefnz` or `GCSswpend`; no state
satisfies both. -/
theorem phase_predicates_ranges (g : global_State) :
    (keepinvariant g = true ↔
      (g.gcstate = GCSpropagate ∨ g.gcstate = GCSenteratomic ∨ g.gcstate = GCSatomic)) ∧
    (issweepphase g = true ↔
      (g.gcstate = GCSswpallgc ∨ g.gcstate = GCSswpfinobj ∨ g.gcstate = GCSswptobefnz ∨
        g.gcstate = GCSswpend)) ∧
    ¬ (keepinvariant g = true ∧ issweepphase g = true) ∧
    (issweepphase g = true → keepinvariant g = false) := by
  obtain ⟨cw, st⟩ := g
  simp only [issweepphase, keepinvariant, GCSpropagate, GCSenteratomic, GCSatomic, GCSswpallgc,
    GCSswpfinobj, GCSswptobefnz, GCSswpend, Bool.and_eq_true, decide_eq_true_eq,
    decide_eq_false_iff_not]
  refine ⟨?_, ?_, ?_, ?_⟩ <;> omega

set_option maxRecDepth 1000000 in
theorem setage_byte_cases : ∀ m, m < 256 → ∀ a, a < 8 →
    (cast_byte ((m &&& not32 AGEBITS) ||| a) &&& AGEBITS = a ∧
     cast_byte ((m &&& not32 AGEBITS) ||| a) >>> 3 = m >>> 3 ∧
     testbits (cast_byte ((m &&& not32 AGEBITS) ||| a)) WHITEBITS = testbits m WHITEBITS ∧
     testbit (cast_byte ((m &&& not32 AGEBITS) ||| a)) BLACKBIT = testbit m BLACKBIT ∧
     testbit (cast_byte ((m &&& not32 AGEBITS) ||| a)) FINALIZEDBIT = testbit m FINALIZEDBIT ∧
     testbit (cast_byte ((m &&& not32 AGEBITS) ||| a)) TESTBIT = testbit m TESTBIT ∧
     testbits (cast_byte ((m &&& not32 AGEBITS) ||| a)) (WHITEBITS ||| bitmask BLACKBIT)
       = testbits m (WHITEBITS ||| bitmask BLACKBIT)) := by
  decide

set_option maxRecDepth 1000000 in
theorem changeage_byte_cases : ∀ m, m < 256 → ∀ x, x < 8 →
    (((m ^^^ x) % 256) &&& AGEBITS = (m &&& AGEBITS) ^^^ x ∧
     ((m ^^^ x) % 256) >>> 3 = m >>> 3 ∧
     testbits ((m ^^^ x) % 256) WHITEBITS = testbits m WHITEBITS ∧
     testbit ((m ^^^ x) % 256) BLACKBIT = testbit m BLACKBIT ∧
     testbit ((m ^^^ x) % 256) FINALIZEDBIT = testbit m FINALIZEDBIT ∧
     testbit ((m ^^^ x) % 256) TESTBIT = testbit m TESTBIT ∧
     testbits ((m ^^^ x) % 256) (WHITEBITS ||| bitmask BLACKBIT)
       = testbits m (WHITEBITS ||| bitmask BLACKBIT)) := by
  decide

theorem age_xor_cases : ∀ f, f < 8 → ∀ t, t < 8 → (f ^^^ t < 8 ∧ f ^^^ (f ^^^ t) = t) := by
  decide

theorem testBit_of_shiftRight_eq {x m : Nat} (h : x >>> 3 = m >>> 3) (j : Nat) (hj : 3 ≤ j) :
    x.testBit j = m.testBit j := by
  have e : j = 3 + (j - 3) := by omega
  rw [e, ← Nat.testBit_shiftRight, ← Nat.testBit_shiftRight, h]

/-- C23: age updates touch only the three age bits.  For every `marked` byte
and ages `a`, `f`, `t` in 0..7, `getage` after `setage(o,a)` is `a`; if
`getage(o) = f` then `getage` after `changeage(o,f,t)` is `t`; both leave
bits 3..7 (white, black, finalized and test bits) unchanged, so the colour
of the object is preserved; and `isold(o)` holds iff `getage(o) >
G_SURVIVAL`. -/
theorem age_updates_touch_age_bits (o : GCObject) (a f t : Nat) (hm : o.marked < 256)
    (ha : a ≤ 7) (hf : f ≤ 7) (ht : t ≤ 7) :
    getage (setage o a) = a ∧
    (getage o = f → getage (changeage o f t) = t) ∧
    (∀ j, 3 ≤ j → (setage o a).marked.testBit j = o.marked.testBit j) ∧
    (∀ j, 3 ≤ j → (changeage o f t).marked.testBit j = o.marked.testBit j) ∧
    (iswhite (setage o a) = iswhite o ∧ isblack (setage o a) = isblack o ∧
      isgray (setage o a) = isgray o ∧ tofinalize (setage o a) = tofinalize o ∧
      testbit (setage o a).marked TESTBIT = testbit o.marked TESTBIT) ∧
    (iswhite (changeage o f t) = iswhite o ∧ isblack (changeage o f t) = isblack o ∧
      isgray (changeage o f t) = isgray o ∧ tofinalize (changeage o f t) = tofinalize o ∧
      testbit (changeage o f t).marked TESTBIT = testbit o.marked TESTBIT) ∧
    ((setage o a).next = o.next ∧ (setage o a).tt = o.tt ∧
      (changeage o f t).next = o.next ∧ (changeage o f t).tt = o.tt) ∧
    (isold o = true ↔ getage o > G_SURVIVAL) := by
  obtain ⟨nx, tt, m⟩ := o
  simp only at hm
  obtain ⟨s1, s2, s3, s4, s5, s6, s7⟩ := setage_byte_cases m hm a (by omega)
  obtain ⟨hx, hxt⟩ := age_xor_cases f (by omega) t (by omega)
  obtain ⟨c1, c2, c3, c4, c5, c6, c7⟩ := changeage_byte_cases m hm (f ^^^ t) hx
  simp only [getage, setage, changeage, iswhite, isblack, isgray, tofinalize, isold,
    decide_eq_true_eq]
  refine ⟨s1, ?_, testBit_of_shiftRight_eq s2, testBit_of_shiftRight_eq c2,
    ⟨s3, s4, ?_, s5, s6⟩, ⟨c3, c4, ?_, c5, c6⟩, ⟨trivial, trivial, trivial, trivial⟩, trivial⟩
  · intro h
    rw [c1, h, hxt]
  · rw [s7]
  · rw [c7]

/-- Instance of `age_updates_touch_age_bits`: a black, old object with
`marked = 0x23`. -/
theorem age_updates_touch_age_bits_witness :
    (35 : Nat) < 256 ∧ (6 : Nat) ≤ 7 ∧ (3 : Nat) ≤ 7 ∧ (4 : Nat) ≤ 7 ∧
    getage (setage { next := 0, tt := 5, marked := 35 } 6) = 6 ∧
    getage (changeage { next := 0, tt := 5, marked := 35 } 3 4) = 4 ∧
    isblack (setage { next := 0, tt := 5, marked := 35 } 6)
      = isblack { next := 0, tt := 5, marked := 35 } :=
  have h := age_updates_touch_age_bits { next := 0, tt := 5, marked := 35 } 6 3 4
    (by decide) (by decide) (by decide) (by decide)
  ⟨by decide, by decide, by decide, by decide, h.1, h.2.1 (by decide), h.2.2.2.2.1.2.1⟩

/-! ## Call status -/

theorem testBit_small {x k : Nat} (hx : x < 2 ^ k) {j : Nat} (hj : k ≤ j) :
    x.testBit j = false := by
  apply Nat.testBit_lt_two_pow
  exact lt_of_lt_of_le hx (Nat.pow_le_pow_right (by norm_num) hj)

theorem testBit_setcistrecst (c st j : Nat) (hst : st ≤ 7) :
    (setcistrecst { callstatus := c } st).callstatus.testBit j =
      (decide (j < 16) && (if 10 ≤ j ∧ j < 13 then st.testBit (j - 10) else c.testBit j)) := by
  have e16 : (65536 : Nat) = 2 ^ 16 := by norm_num
  have e7 : (7 : Nat) = 2 ^ 3 - 1 := by norm_num
  have hst8 : st < 2 ^ 3 := by omega
  simp only [setcistrecst, CIST_RECST]
  rw [e16, Nat.testBit_mod_two_pow, Nat.testBit_or, Nat.testBit_and, testBit_not32,
    Nat.testBit_shiftLeft, Nat.testBit_shiftLeft, e7, Nat.testBit_two_pow_sub_one]
  by_cases h16 : j < 16
  · have h32 : j < 32 := by omega
    by_cases h10 : 10 ≤ j
    · by_cases h13 : j < 13
      · have h3 : j - 10 < 3 := by omega
        simp [h16, h32, h10, h13, h3]
      · have h3 : ¬ j - 10 < 3 := by omega
        have hz : st.testBit (j - 10) = false := testBit_small hst8 (by omega)
        simp [h16, h32, h10, h13, h3, hz]
    · have hn : ¬ (10 ≤ j ∧ j < 13) := by omega
      simp [h16, h32, h10, hn]
  · simp [h16]

theorem getcistrecst_setcistrecst (c st : Nat) (hst : st ≤ 7) :
    getcistrecst (setcistrecst { callstatus := c } st) = st := by
  have e7 : (7 : Nat) = 2 ^ 3 - 1 := by norm_num
  have hst8 : st < 2 ^ 3 := by omega
  unfold getcistrecst
  apply Nat.eq_of_testBit_eq
  intro k
  simp only [CIST_RECST]
  rw [Nat.testBit_and, Nat.testBit_shiftRight, testBit_setcistrecst c st _ hst, e7,
    Nat.testBit_two_pow_sub_one]
  by_cases h3 : k < 3
  · have h1 : 10 + k < 16 := by omega
    have h2 : 10 ≤ 10 + k ∧ 10 + k < 13 := by omega
    simp [h3, h1, h2]
  · have hz : st.testBit k = false := testBit_small hst8 (by omega)
    simp [h3, hz]

theorem setcistrecst_and_mask (c st m : Nat) (hc : c < 65536) (hst : st ≤ 7)
    (hm : m &&& (7 <<< CIST_RECST) = 0) :
    (setcistrecst { callstatus := c } st).callstatus &&& m = c &&& m := by
  have e7 : (7 : Nat) = 2 ^ 3 - 1 := by norm_num
  have hc16 : c < 2 ^ 16 := by simpa using hc
  apply Nat.eq_of_testBit_eq
  intro j
  rw [Nat.testBit_and, Nat.testBit_and, testBit_setcistrecst c st j hst]
  have hmj := congrArg (fun x => Nat.testBit x j) hm
  simp only [CIST_RECST, Nat.testBit_and, Nat.testBit_shiftLeft, Nat.zero_testBit] at hmj
  rw [e7, Nat.testBit_two_pow_sub_one] at hmj
  by_cases h16 : j < 16
  · by_cases hf : 10 ≤ j ∧ j < 13
    · have h3 : j - 10 < 3 := by omega
      have hmf : m.testBit j = false := by simpa [hf.1, h3] using hmj
      simp [hmf]
    · simp [h16, hf]
  · have hz : c.testBit j = false := testBit_small hc16 (by omega)
    simp [h16, hz]


theorem testBit_setoah (st v j : Nat) (hv : v ≤ 1) :
    (setoah st v).testBit j =
      (decide (j < 16) && (if j = 0 then v.testBit 0 else st.testBit j)) := by
  have e16 : (65536 : Nat) = 2 ^ 16 := by norm_num
  have e1 : CIST_OAH = 2 ^ 0 := by decide
  have hv2 : v < 2 ^ 1 := by omega
  unfold setoah
  rw [e16, Nat.testBit_mod_two_pow, Nat.testBit_or, Nat.testBit_and, testBit_not32, e1,
    Nat.testBit_two_pow]
  by_cases h0 : j = 0
  · subst h0
    simp
  · have hz : v.testBit j = false := testBit_small hv2 (by omega)
    have h0' : ¬ 0 = j := fun h => h0 h.symm
    by_cases h16 : j < 16
    · have h32 : j < 32 := by omega
      simp [h0, h0', hz, h16, h32]
    · simp [h16]

theorem getoah_setoah (st v : Nat) (hv : v ≤ 1) : getoah (setoah st v) = v := by
  have e1 : CIST_OAH = 2 ^ 0 := by decide
  have hv2 : v < 2 ^ 1 := by omega
  unfold getoah
  apply Nat.eq_of_testBit_eq
  intro j
  rw [Nat.testBit_and, testBit_setoah st v j hv, e1, Nat.testBit_two_pow]
  by_cases h0 : j = 0
  · subst h0
    simp
  · have hz : v.testBit j = false := testBit_small hv2 (by omega)
    have h0' : ¬ 0 = j := fun h => h0 h.symm
    simp [h0', hz]

theorem cist_flags_outside_recst :
    ∀ F ∈ [CIST_OAH, CIST_C, CIST_FRESH, CIST_HOOKED, CIST_YPCALL, CIST_TAIL, CIST_HOOKYIELD,
      CIST_FIN, CIST_TRAN, CIST_CLSRET, CIST_C ||| CIST_HOOKED],
    F &&& (7 <<< CIST_RECST) = 0 := by
  decide

/-- C24: the recover status is a self-contained 3-bit field of `callstatus`.
For every 16-bit `callstatus` and every `st` in 0..7, `getcistrecst` after
`setcistrecst(ci,st)` is `st` and every bit other than bits 10..12 is
unchanged; every thread status `LUA_OK`..`LUA_ERRERR` fits in the field; the
ten `CIST_*` flags are the single bits 0..9, outside bits 10..12, so setting
the recover status changes neither `isLua(ci)`, `isLuacode(ci)` nor any flag;
and `getoah` after `setoah(st,v)` is `v` for `v` in {0,1}, all other bits
being unchanged. -/
theorem recover_status_field (ci : CallInfo) (st v : Nat) (hc : ci.callstatus < 65536)
    (hst : st ≤ 7) (hv : v ≤ 1) :
    getcistrecst (setcistrecst ci st) = st ∧
    (∀ j, ¬ (10 ≤ j ∧ j ≤ 12) →
      (setcistrecst ci st).callstatus.testBit j = ci.callstatus.testBit j) ∧
    (∀ s ∈ [LUA_OK, LUA_YIELD, LUA_ERRRUN, LUA_ERRSYNTAX, LUA_ERRMEM, LUA_ERRERR], s ≤ 7) ∧
    [CIST_OAH, CIST_C, CIST_FRESH, CIST_HOOKED, CIST_YPCALL, CIST_TAIL, CIST_HOOKYIELD,
      CIST_FIN, CIST_TRAN, CIST_CLSRET] = List.map (fun k => 2 ^ k) (List.range 10) ∧
    (∀ F ∈ [CIST_OAH, CIST_C, CIST_FRESH, CIST_HOOKED, CIST_YPCALL, CIST_TAIL, CIST_HOOKYIELD,
        CIST_FIN, CIST_TRAN, CIST_CLSRET],
      F &&& (7 <<< CIST_RECST) = 0 ∧
      (setcistrecst ci st).callstatus &&& F = ci.callstatus &&& F) ∧
    isLua (setcistrecst ci st) = isLua ci ∧
    isLuacode (setcistrecst ci st) = isLuacode ci ∧
    getoah (setoah ci.callstatus v) = v ∧
    (∀ j, j ≠ 0 → (setoah ci.callstatus v).testBit j = ci.callstatus.testBit j) := by
  obtain ⟨c⟩ := ci
  simp only at hc
  have hc16 : c < 2 ^ 16 := by simpa using hc
  refine ⟨getcistrecst_setcistrecst c st hst, ?_, by decide, by decide, ?_, ?_, ?_,
    getoah_setoah c v hv, ?_⟩
  · intro j hj
    rw [testBit_setcistrecst c st j hst]
    have hf : ¬ (10 ≤ j ∧ j < 13) := by omega
    by_cases h16 : j < 16
    · simp [h16, hf]
    · simp [h16, testBit_small hc16 (Nat.le_of_not_lt h16)]
  · intro F hF
    have hm := cist_flags_outside_recst F (by
      simp only [List.mem_cons, List.mem_singleton, List.not_mem_nil, or_false] at hF ⊢
      tauto)
    exact ⟨hm, setcistrecst_and_mask c st F hc hst hm⟩
  · simp only [isLua]
    rw [setcistrecst_and_mask c st _ hc hst (cist_flags_outside_recst _ (by simp))]
  · simp only [isLuacode]
    rw [setcistrecst_and_mask c st _ hc hst (cist_flags_outside_recst _ (by simp))]
  · intro j hj
    rw [testBit_setoah c v j hv]
    by_cases h16 : j < 16
    · simp [h16, hj]
    · simp [h16, testBit_small hc16 (Nat.le_of_not_lt h16)]

/-- Instance of `recover_status_field` at `callstatus = 0xFFFF`, status
`LUA_ERRERR`. -/
theorem recover_status_field_witness :
    (65535 : Nat) < 65536 ∧ LUA_ERRERR ≤ 7 ∧ (0 : Nat) ≤ 1 ∧
    getcistrecst (setcistrecst { callstatus := 65535 } LUA_ERRERR) = LUA_ERRERR ∧
    isLua (setcistrecst { callstatus := 65535 } LUA_ERRERR) = isLua { callstatus := 65535 } ∧
    getoah (setoah 65535 0) = 0 :=
  have h := recover_status_field { callstatus := 65535 } LUA_ERRERR 0 (by decide) (by decide)
    (by decide)
  ⟨by decide, by decide, by decide, h.1, h.2.2.2.2.2.1, h.2.2.2.2.2.2.2.1⟩

/-! ## Sizes of memory blocks -/

theorem cast_sizet_of_range (ss : Nat) (n : Int) (h0 : 0 ≤ n) (h1 : n < 2 ^ (8 * ss)) :
    ((cast_sizet ss n : Nat) : Int) = n := by
  unfold cast_sizet
  rw [Int.toNat_of_nonneg (Int.emod_nonneg _ (ne_of_gt (two_pow_int_pos _))),
    Int.emod_eq_of_lt h0 h1]

theorem luaM_testsize_sound (ss sizeof_n : Nat) (n : Int) (e : Nat) (hs : ss ≤ sizeof_n)
    (hn : 0 ≤ n ∧ n < (MAX_SIZET ss : Int)) (he : 1 ≤ e)
    (h : luaM_testsize ss sizeof_n n e = false) : n * (e : Int) ≤ (MAX_SIZET ss : Int) := by
  have hpos : 0 < 2 ^ (8 * ss) := Nat.two_pow_pos _
  have hM : MAX_SIZET ss = 2 ^ (8 * ss) - 1 := rfl
  have hMi : ((MAX_SIZET ss : Nat) : Int) = 2 ^ (8 * ss) - 1 := by
    rw [hM, Nat.cast_sub hpos]; push_cast; ring
  obtain ⟨m, rfl⟩ := Int.eq_ofNat_of_zero_le hn.1
  have hm : m < MAX_SIZET ss := by exact_mod_cast hn.2
  have hc : cast_sizet ss (m : Int) = m := by
    have := cast_sizet_of_range ss m hn.1 (by rw [hMi] at hn; omega)
    exact_mod_cast this
  unfold luaM_testsize at h
  rw [hc] at h
  have hwrap : (m + 1) % 2 ^ (8 * ss) = m + 1 := Nat.mod_eq_of_lt (by omega)
  rw [hwrap] at h
  simp only [ge_iff_le, hs, decide_True, Bool.true_and, decide_eq_false_iff_not, not_lt] at h
  have h2 : m + 1 ≤ MAX_SIZET ss / e := h
  have h3 : (m + 1) * e ≤ MAX_SIZET ss := by
    calc (m + 1) * e ≤ MAX_SIZET ss / e * e := Nat.mul_le_mul_right e h2
      _ ≤ MAX_SIZET ss := Nat.div_mul_le_self _ _
  have h4 : m * e ≤ MAX_SIZET ss := by nlinarith
  exact_mod_cast h4

/-- C25: at `n = MAX_SIZET` the test `luaM_testsize` misses an overflow.
With an 8-byte `size_t`, `n = MAX_SIZET` of type `size_t` and an element size
of 2, `cast_sizet(n) + 1` wraps around to 0, so `luaM_testsize(n,2)` is false
although the exact product `n*2` exceeds `MAX_SIZET`. -/
theorem luaM_testsize_misses_wraparound :
    luaM_testsize 8 8 (MAX_SIZET 8 : Int) 2 = false ∧
    (MAX_SIZET 8 : Int) < (MAX_SIZET 8 : Int) * 2 ∧
    cast_sizet 8 (MAX_SIZET 8 : Int) = MAX_SIZET 8 ∧
    (cast_sizet 8 (MAX_SIZET 8 : Int) + 1) % 2 ^ (8 * 8) = 0 := by
  decide

/-- C26: `luaM_limitN` computes the minimum between `n` and
`MAX_SIZET/sizeof(t)`.  For every `n` that is a non-negative `int` or an
`unsigned int` (`unsigned int`, of 4 bytes, being no wider than `size_t`) and
every element size `s ≥ 1`, `luaM_limitN(n,t) = min(n, MAX_SIZET div s)`, so
the result is not larger than `n` and the result times `s` does not exceed
`MAX_SIZET`. -/
theorem luaM_limitN_is_min (ss : Nat) (n : Int) (s : Nat) (hss : 4 ≤ ss)
    (hn : 0 ≤ n ∧ n ≤ (UINT_MAX : Int)) (_hs : 1 ≤ s) :
    luaM_limitN ss n s = min n ((MAX_SIZET ss / s : Nat) : Int) ∧
    luaM_limitN ss n s ≤ n ∧
    0 ≤ luaM_limitN ss n s ∧
    luaM_limitN ss n s * (s : Int) ≤ (MAX_SIZET ss : Int) := by
  have hU : UINT_MAX = 4294967295 := rfl
  rw [hU] at hn
  have hpow : 2 ^ 32 ≤ 2 ^ (8 * ss) := Nat.pow_le_pow_right (by norm_num) (by omega)
  have hpow' : (4294967296 : Nat) ≤ 2 ^ (8 * ss) := by norm_num at hpow; exact hpow
  have hM : MAX_SIZET ss = 2 ^ (8 * ss) - 1 := rfl
  obtain ⟨m, rfl⟩ := Int.eq_ofNat_of_zero_le hn.1
  have hm : m ≤ 4294967295 := by exact_mod_cast hn.2
  have hc : cast_sizet ss (m : Int) = m := by
    have := cast_sizet_of_range ss m hn.1 (by exact_mod_cast (by omega : m < 2 ^ (8 * ss)))
    exact_mod_cast this
  have hdiv : MAX_SIZET ss / s * s ≤ MAX_SIZET ss := Nat.div_mul_le_self _ _
  have key : ∀ q : Nat, (if m ≤ q then (m : Int) else cast_uint ((q : Nat) : Int))
      = ((min m q : Nat) : Int) := by
    intro q
    by_cases h : m ≤ q
    · rw [if_pos h, Nat.min_eq_left h]
    · rw [if_neg h, Nat.min_eq_right (by omega)]
      unfold cast_uint
      omega
  unfold luaM_limitN
  rw [hc, key]
  refine ⟨by push_cast; rfl, ?_, Int.natCast_nonneg _, ?_⟩
  · exact_mod_cast Nat.min_le_left m _
  · have h1 : min m (MAX_SIZET ss / s) * s ≤ MAX_SIZET ss :=
      le_trans (Nat.mul_le_mul_right s (Nat.min_le_right m _)) hdiv
    exact_mod_cast h1

/-- Instance of `luaM_limitN_is_min` with a 4-byte `size_t`: the limit
`UINT_MAX` for elements of 16 bytes. -/
theorem luaM_limitN_is_min_witness :
    4 ≤ 4 ∧ ((0 : Int) ≤ 4294967295 ∧ (4294967295 : Int) ≤ (UINT_MAX : Int)) ∧ 1 ≤ 16 ∧
    luaM_limitN 4 4294967295 16 = 268435455 ∧
    luaM_limitN 4 4294967295 16 * 16 ≤ (MAX_SIZET 4 : Int) :=
  have h := luaM_limitN_is_min 4 4294967295 16 (by decide) (by decide) (by decide)
  ⟨by decide, by decide, by decide, h.1.trans (by decide), h.2.2.2⟩

/-! ## Hash part of tables -/

/-- C27: `lmod` is the modulo for power-of-two sizes.  For every
non-negative `s` and every `size = 2^p` with `0 ≤ p ≤ 30`, `lmod(s,size) = s
mod size`, hence `0 ≤ lmod(s,size) < size`; with `size = sizenode(t) =
2^lsizenode` the result is a valid index into the node array of the
table. -/
theorem lmod_is_modulo (s p : Nat) (t : Table) (hp : p ≤ 30) (ht : t.lsizenode ≤ 30) :
    twoto p = 2 ^ p ∧
    lmod s (twoto p) = ((s % 2 ^ p : Nat) : Int) ∧
    (0 ≤ lmod s (twoto p) ∧ lmod s (twoto p) < (twoto p : Int)) ∧
    sizenode t = 2 ^ t.lsizenode ∧
    (0 ≤ lmod s (sizenode t) ∧ lmod s (sizenode t) < (sizenode t : Int)) := by
  have two : ∀ q, twoto q = 2 ^ q := by
    intro q
    simp [twoto, Nat.shiftLeft_eq]
  have key : ∀ q, q ≤ 30 → lmod s (twoto q) = ((s % 2 ^ q : Nat) : Int) := by
    intro q hq
    unfold lmod
    rw [two q, Nat.and_pow_two_sub_one_eq_mod]
    apply cast_int_of_lt
    have h1 : s % 2 ^ q < 2 ^ q := Nat.mod_lt _ (Nat.two_pow_pos q)
    have h2 : 2 ^ q ≤ 2 ^ 30 := Nat.pow_le_pow_right (by norm_num) hq
    omega
  have bound : ∀ q, q ≤ 30 →
      (0 ≤ lmod s (twoto q) ∧ lmod s (twoto q) < (twoto q : Int)) := by
    intro q hq
    rw [key q hq, two q]
    have h1 : s % 2 ^ q < 2 ^ q := Nat.mod_lt _ (Nat.two_pow_pos q)
    constructor
    · exact Int.natCast_nonneg _
    · exact_mod_cast h1
  exact ⟨two p, key p hp, bound p hp, two _, bound _ ht⟩

/-- Instance of `lmod_is_modulo`: the hash 1000003 in a node array of size
16. -/
theorem lmod_is_modulo_witness :
    4 ≤ 30 ∧ lmod 1000003 (twoto 4) = 3 ∧
    lmod 1000003 (sizenode
      { next := 0, tt := LUA_VTABLE, marked := 0, flags := 0, lsizenode := 4,
        alimit := 0, array := 0, node := 0, lastfree := 0, metatable := 0, gclist := 0 })
      < 16 :=
  have h := lmod_is_modulo 1000003 4
      { next := 0, tt := LUA_VTABLE, marked := 0, flags := 0, lsizenode := 4,
        alimit := 0, array := 0, node := 0, lastfree := 0, metatable := 0, gclist := 0 }
    (by decide) (by decide)
  ⟨by decide, h.2.1.trans (by decide), h.2.2.2.2.2⟩

/-! ## Instruction properties -/

theorem opmode_cases (mm ot it t a m : Nat) (hmm : mm < 2) (hot : ot < 2) (hit : it < 2)
    (ht : t < 2) (ha : a < 2) (hm : m < 5) :
    opmode mm ot it t a m < 256 ∧
    opmode mm ot it t a m &&& 7 = m ∧
    (opmode mm ot it t a m &&& (1 <<< 3) ≠ 0 ↔ a = 1) ∧
    (opmode mm ot it t a m &&& (1 <<< 4) ≠ 0 ↔ t = 1) ∧
    (opmode mm ot it t a m &&& (1 <<< 5) ≠ 0 ↔ it = 1) ∧
    (opmode mm ot it t a m &&& (1 <<< 6) ≠ 0 ↔ ot = 1) ∧
    (opmode mm ot it t a m &&& (1 <<< 7) ≠ 0 ↔ mm = 1) := by
  interval_cases mm <;> interval_cases ot <;> interval_cases it <;> interval_cases t <;>
    interval_cases a <;> interval_cases m <;> decide

/-- C28: the instruction-property byte packs and unpacks losslessly.  For
every `mm`, `ot`, `it`, `t`, `a` in {0,1} and every op mode `m` among `iABC`,
`iABx`, `iAsBx`, `iAx`, `isJ` (0..4), the byte `b = opmode(mm,ot,it,t,a,m)`
fits in 8 bits and, read back as `luaP_opmodes[op] = b`, `getOpMode` gives
`m`, and `testAMode`, `testTMode`, `testITMode`, `testOTMode`, `testMMMode`
are non-zero iff `a`, `t`, `it`, `ot`, `mm` are 1 respectively. -/
theorem opmode_packs_losslessly (luaP_opmodes : Nat → Nat) (op mm ot it t a : Nat) (m : OpMode)
    (hmm : mm ≤ 1) (hot : ot ≤ 1) (hit : it ≤ 1) (ht : t ≤ 1) (ha : a ≤ 1)
    (hb : luaP_opmodes op = opmode mm ot it t a m.toCtorIdx) :
    opmode mm ot it t a m.toCtorIdx < 256 ∧
    getOpMode luaP_opmodes op = m.toCtorIdx ∧
    OpMode.ofNat (getOpMode luaP_opmodes op) = m ∧
    (testAMode luaP_opmodes op ≠ 0 ↔ a = 1) ∧
    (testTMode luaP_opmodes op ≠ 0 ↔ t = 1) ∧
    (testITMode luaP_opmodes op ≠ 0 ↔ it = 1) ∧
    (testOTMode luaP_opmodes op ≠ 0 ↔ ot = 1) ∧
    (testMMMode luaP_opmodes op ≠ 0 ↔ mm = 1) := by
  have hm : m.toCtorIdx < 5 := by cases m <;> decide
  obtain ⟨h0, h1, h2, h3, h4, h5, h6⟩ :=
    opmode_cases mm ot it t a m.toCtorIdx (by omega) (by omega) (by omega) (by omega)
      (by omega) hm
  simp only [getOpMode, testAMode, testTMode, testITMode, testOTMode, testMMMode, hb]
  refine ⟨h0, h1, ?_, h2, h3, h4, h5, h6⟩
  rw [h1]
  cases m <;> rfl

/-- Instance of `opmode_packs_losslessly`: a table whose entries are all
`opmode(1,0,1,0,1,iAsBx)`. -/
theorem opmode_packs_losslessly_witness :
    (fun _ : Nat => opmode 1 0 1 0 1 2) 7 = opmode 1 0 1 0 1 OpMode.iAsBx.toCtorIdx ∧
    getOpMode (fun _ => opmode 1 0 1 0 1 2) 7 = 2 ∧
    testAMode (fun _ => opmode 1 0 1 0 1 2) 7 ≠ 0 ∧
    ¬ (testTMode (fun _ => opmode 1 0 1 0 1 2) 7 ≠ 0) :=
  have h := opmode_packs_losslessly (fun _ => opmode 1 0 1 0 1 2) 7 1 0 1 0 1 OpMode.iAsBx
    (by decide) (by decide) (by decide) (by decide) (by decide) rfl
  ⟨rfl, h.2.1, h.2.2.2.1.mpr rfl, fun hc => absurd (h.2.2.2.2.1.mp hc) (by decide)⟩

/-! ## The flags byte of a table -/

set_option maxRecDepth 100000 in
theorem flags_byte_cases : ∀ f, f < 256 →
    (((f &&& not32 maskflags) % 256) &&& maskflags = 0 ∧
     ((f &&& not32 maskflags) % 256) >>> 6 = f >>> 6 ∧
     ((f &&& not32 maskflags) % 256) &&& BITRAS = f &&& BITRAS ∧
     (∀ e, e < 6 → ((f &&& not32 maskflags) % 256) &&& shl32 1 e = 0) ∧
     ((f &&& cast_byte (not32 BITRAS)) % 256) &&& BITRAS = 0 ∧
     ((f &&& cast_byte (not32 BITRAS)) % 256) % 128 = f % 128 ∧
     ((f ||| BITRAS) % 256) &&& BITRAS ≠ 0 ∧
     ((f ||| BITRAS) % 256) % 128 = f % 128) := by
  decide

theorem testBit_of_shiftRight_eq_six {x m : Nat} (h : x >>> 6 = m >>> 6) (j : Nat)
    (hj : 6 ≤ j) : x.testBit j = m.testBit j := by
  have e : j = 6 + (j - 6) := by omega
  rw [e, ← Nat.testBit_shiftRight, ← Nat.testBit_shiftRight, h]

theorem testBit_of_mod_eq {x m : Nat} (h : x % 128 = m % 128) (j : Nat) (hj : j < 7) :
    x.testBit j = m.testBit j := by
  have e : (128 : Nat) = 2 ^ 7 := by norm_num
  rw [e] at h
  have h1 := Nat.testBit_mod_two_pow x 7 j
  have h2 := Nat.testBit_mod_two_pow m 7 j
  rw [h] at h1
  simp only [hj, decide_True, Bool.true_and] at h1 h2
  rw [← h1, ← h2]

/-- C29: the metamethod cache and the real-array-size flag share the byte
`flags` of a table without interfering.  `maskflags` has exactly bits
0..`TM_EQ` (0..5) set and excludes `BITRAS` (bit 7); for every flags byte,
`invalidateTMcache(t)` clears bits 0..5 and leaves bits 6 and 7 unchanged, so
`isrealasize(t)` is preserved and `gfasttm` does not return `NULL` from the
flag test for any event `e ≤ TM_EQ`; `setrealasize` and `setnorealasize`
change only bit 7. -/
theorem flags_byte_shared (g : global_State) (t : Table) (e : Nat) (hf : t.flags < 256)
    (he : e ≤ TMS.TM_EQ.toCtorIdx) :
    (maskflags = 63 ∧ (∀ j, maskflags.testBit j = decide (j ≤ TMS.TM_EQ.toCtorIdx)) ∧
      maskflags &&& BITRAS = 0 ∧ BITRAS = 128) ∧
    ((invalidateTMcache t).flags &&& maskflags = 0 ∧
      (∀ j, j ≤ 5 → (invalidateTMcache t).flags.testBit j = false) ∧
      (∀ j, 6 ≤ j → (invalidateTMcache t).flags.testBit j = t.flags.testBit j)) ∧
    isrealasize (invalidateTMcache t) = isrealasize t ∧
    gfasttm g (some (invalidateTMcache t)) e = FastTM.luaT_gettm (invalidateTMcache t) e ∧
    (isrealasize (setrealasize t) = true ∧
      (∀ j, j ≠ 7 → (setrealasize t).flags.testBit j = t.flags.testBit j)) ∧
    (isrealasize (setnorealasize t) = false ∧
      (∀ j, j ≠ 7 → (setnorealasize t).flags.testBit j = t.flags.testBit j)) := by
  obtain ⟨f1, f2, f3, f4, f5, f6, f7, f8⟩ := flags_byte_cases t.flags hf
  have hmask : maskflags = 63 := by decide
  have hteq : TMS.TM_EQ.toCtorIdx = 5 := rfl
  have hlt : ∀ x, x < 256 → ∀ j, 8 ≤ j → x.testBit j = false := by
    intro x hx j hj
    apply Nat.testBit_lt_two_pow
    calc x < 2 ^ 8 := by simpa using hx
      _ ≤ 2 ^ j := Nat.pow_le_pow_right (by norm_num) hj
  have hmod : ∀ x, x % 256 < 256 := fun x => Nat.mod_lt _ (by norm_num)
  rw [hteq] at he
  refine ⟨⟨hmask, ?_, by decide, by decide⟩, ⟨f1, ?_, ?_⟩, ?_, ?_, ⟨?_, ?_⟩, ⟨?_, ?_⟩⟩
  · intro j
    have e63 : (63 : Nat) = 2 ^ 6 - 1 := by norm_num
    rw [hmask, hteq, e63, Nat.testBit_two_pow_sub_one]
    by_cases h : j < 6
    · simp [h]; omega
    · simp [h]; omega
  · intro j hj
    have h := congrArg (fun x => Nat.testBit x j) f1
    have e63 : (63 : Nat) = 2 ^ 6 - 1 := by norm_num
    simp only [invalidateTMcache, Nat.testBit_and, Nat.zero_testBit, hmask] at h ⊢
    rw [e63, Nat.testBit_two_pow_sub_one] at h
    have hj6 : j < 6 := by omega
    simpa [hj6] using h
  · intro j hj
    exact testBit_of_shiftRight_eq_six f2 j hj
  · simp only [isrealasize, invalidateTMcache, f3]
  · simp only [gfasttm, invalidateTMcache, f4 e (by omega)]
    rfl
  · simp only [isrealasize, setrealasize, f5]
    rfl
  · intro j hj
    simp only [setrealasize]
    by_cases h7 : j < 7
    · exact testBit_of_mod_eq f6 j h7
    · rw [hlt _ (hmod _) j (by omega), hlt _ hf j (by omega)]
  · simp only [isrealasize, setnorealasize]
    rw [beq_eq_false_iff_ne]
    exact f7
  · intro j hj
    simp only [setnorealasize]
    by_cases h7 : j < 7
    · exact testBit_of_mod_eq f8 j h7
    · rw [hlt _ (hmod _) j (by omega), hlt _ hf j (by omega)]

/-- Instance of `flags_byte_shared`: a table with all flag bits set, event
`TM_EQ`. -/
theorem flags_byte_shared_witness :
    (255 : Nat) < 256 ∧ 5 ≤ TMS.TM_EQ.toCtorIdx ∧
    (invalidateTMcache
      { next := 0, tt := LUA_VTABLE, marked := 0, flags := 255, lsizenode := 0,
        alimit := 0, array := 0, node := 0, lastfree := 0, metatable := 0, gclist := 0 }).flags
      &&& maskflags = 0 ∧
    isrealasize (invalidateTMcache
      { next := 0, tt := LUA_VTABLE, marked := 0, flags := 255, lsizenode := 0,
        alimit := 0, array := 0, node := 0, lastfree := 0, metatable := 0, gclist := 0 })
      = false :=
  have h := flags_byte_shared { currentwhite := 8, gcstate := GCSpause }
      { next := 0, tt := LUA_VTABLE, marked := 0, flags := 255, lsizenode := 0,
        alimit := 0, array := 0, node := 0, lastfree := 0, metatable := 0, gclist := 0 }
    5 (by decide) (by decide)
  ⟨by decide, by decide, h.2.1.1, h.2.2.1.trans (by decide)⟩

/-! ## Node keys -/

/-- C30: the key of a node round-trips and is independent of its value.  For
every node `n` and every tagged value `k`, `getnodekey(L,obj,n)` after
`setnodekey(L,n,k)` makes `obj` equal to `k` in both tag and payload;
`setnodekey` changes only `key_tt` and `key_val`, leaving the value of the
node (`value_`, `tt_`, that is `gval(n)`) and its link `next` unchanged. -/
theorem nodekey_roundtrip (L : Nat) (n : Node) (k obj : TValue) :
    getnodekey L obj (setnodekey L n k) = k ∧
    (getnodekey L obj (setnodekey L n k)).tt_ = k.tt_ ∧
    (getnodekey L obj (setnodekey L n k)).value_ = k.value_ ∧
    (setnodekey L n k).key_tt = k.tt_ ∧
    (setnodekey L n k).key_val = k.value_ ∧
    (setnodekey L n k).value_ = n.value_ ∧
    (setnodekey L n k).tt_ = n.tt_ ∧
    gval (setnodekey L n k) = gval n ∧
    gnext (setnodekey L n k) = gnext n := by
  refine ⟨rfl, rfl, rfl, rfl, rfl, rfl, rfl, rfl, rfl⟩

/-! ## Type names -/

/-- C31: `ttypename` never indexes outside its table for a real type code.
`LUA_TOTALTYPES = 12` is exactly the number of type codes from `LUA_TNONE`
(-1) through `LUA_TPROTO` (10), and for every such code `x` the index `x + 1`
used by `ttypename(x)` satisfies `0 ≤ x + 1 < LUA_TOTALTYPES`; `LUA_TDEADKEY`,
which is excluded from the count, is the only defined type code whose index
falls outside `luaT_typenames_`. -/
theorem ttypename_index_in_table (luaT_typenames_ : List String) (x : Int)
    (hlen : luaT_typenames_.length = LUA_TOTALTYPES)
    (hx : LUA_TNONE ≤ x ∧ x ≤ (LUA_TPROTO : Int)) :
    LUA_TOTALTYPES = 12 ∧
    ((LUA_TPROTO : Int) - LUA_TNONE + 1 = (LUA_TOTALTYPES : Int)) ∧
    (0 ≤ x + 1 ∧ x + 1 < (LUA_TOTALTYPES : Int)) ∧
    (∃ s, ttypename luaT_typenames_ x = some s) ∧
    ttypename luaT_typenames_ (LUA_TDEADKEY : Int) = none ∧
    (∀ c ∈ [LUA_TNONE, (LUA_TNIL : Int), (LUA_TBOOLEAN : Int), (LUA_TLIGHTUSERDATA : Int),
        (LUA_TNUMBER : Int), (LUA_TSTRING : Int), (LUA_TTABLE : Int), (LUA_TFUNCTION : Int),
        (LUA_TUSERDATA : Int), (LUA_TTHREAD : Int), (LUA_TUPVAL : Int), (LUA_TPROTO : Int),
        (LUA_TDEADKEY : Int)],
      (¬ (0 ≤ c + 1 ∧ c + 1 < (LUA_TOTALTYPES : Int)) ↔ c = (LUA_TDEADKEY : Int))) := by
  have hT : LUA_TOTALTYPES = 12 := by decide
  have hP : LUA_TPROTO = 10 := by decide
  have hN : LUA_TNONE = -1 := rfl
  have hD : LUA_TDEADKEY = 11 := by decide
  rw [hN, hP] at hx
  refine ⟨hT, by decide, ⟨by omega, by rw [hT]; omega⟩, ?_, ?_, by decide⟩
  · have h0 : 0 ≤ x + 1 := by omega
    have hlt : (x + 1).toNat < luaT_typenames_.length := by rw [hlen, hT]; omega
    refine ⟨luaT_typenames_[(x + 1).toNat], ?_⟩
    unfold ttypename
    rw [if_pos h0]
    exact List.getElem?_eq_getElem hlt
  · unfold ttypename
    rw [hD]
    have h0 : (0 : Int) ≤ ((11 : Nat) : Int) + 1 := by norm_num
    rw [if_pos h0]
    apply List.getElem?_eq_none
    rw [hlen, hT]
    decide

/-- Instance of `ttypename_index_in_table`: a table of twelve names and the
code `LUA_TPROTO`. -/
theorem ttypename_index_in_table_witness :
    ["no value", "nil", "boolean", "userdata", "number", "string", "table", "function",
      "userdata", "thread", "upvalue", "proto"].length = LUA_TOTALTYPES ∧
    (LUA_TNONE ≤ (LUA_TPROTO : Int) ∧ (LUA_TPROTO : Int) ≤ (LUA_TPROTO : Int)) ∧
    (0 ≤ (LUA_TPROTO : Int) + 1 ∧ (LUA_TPROTO : Int) + 1 < (LUA_TOTALTYPES : Int)) ∧
    ttypename ["no value", "nil", "boolean", "userdata", "number", "string", "table",
      "function", "userdata", "thread", "upvalue", "proto"] (LUA_TDEADKEY : Int) = none :=
  have h := ttypename_index_in_table
    ["no value", "nil", "boolean", "userdata", "number", "string", "table", "function",
      "userdata", "thread", "upvalue", "proto"] (LUA_TPROTO : Int) (by decide) (by decide)
  ⟨by decide, by decide, h.2.2.1, h.2.2.2.2.1⟩

/-! ## Collector parameters -/

/-- C32: GC parameters stored divided by 4 cover values up to 1023 in one
byte.  For every `v` in 0..1023, `setgcparam` stores `v div 4 ≤ 255` (no
truncation in a `lu_byte`) and `getgcparam` of the stored value is
`4*(v div 4)`, which never exceeds `v`, differs from `v` by at most 3, and
equals `v` exactly when `v` is a multiple of 4; the defaults `LUAI_GCPAUSE`
(200) and `LUAI_GCMUL` (100) round-trip exactly. -/
theorem gcparam_quarter_storage (p : Nat) (v : Int) (hv : 0 ≤ v ∧ v ≤ 1023) :
    ((setgcparam p v : Nat) : Int) = v / 4 ∧
    setgcparam p v ≤ 255 ∧
    getgcparam (setgcparam p v) = 4 * (v / 4) ∧
    getgcparam (setgcparam p v) ≤ v ∧
    v - getgcparam (setgcparam p v) ≤ 3 ∧
    (getgcparam (setgcparam p v) = v ↔ v % 4 = 0) ∧
    getgcparam (setgcparam p LUAI_GCPAUSE) = LUAI_GCPAUSE ∧
    getgcparam (setgcparam p LUAI_GCMUL) = LUAI_GCMUL := by
  have hs : ((setgcparam p v : Nat) : Int) = v / 4 := by
    unfold setgcparam cast_byte
    rw [Int.tdiv_eq_ediv hv.1 (by norm_num)]
    omega
  have hg : getgcparam (setgcparam p v) = 4 * (v / 4) := by
    unfold getgcparam
    rw [hs]
    ring
  have hd : ∀ q : Nat, getgcparam (setgcparam q LUAI_GCPAUSE) = LUAI_GCPAUSE ∧
      getgcparam (setgcparam q LUAI_GCMUL) = LUAI_GCMUL := by
    intro q
    simp only [setgcparam, getgcparam]
    decide
  refine ⟨hs, by omega, hg, ?_, ?_, ?_, (hd p).1, (hd p).2⟩
  · rw [hg]; omega
  · rw [hg]; omega
  · rw [hg]; omega

/-- Instance of `gcparam_quarter_storage` at the largest value, 1023. -/
theorem gcparam_quarter_storage_witness :
    ((0 : Int) ≤ 1023 ∧ (1023 : Int) ≤ 1023) ∧
    setgcparam 0 1023 ≤ 255 ∧
    getgcparam (setgcparam 0 1023) = 4 * (1023 / 4) ∧
    1023 - getgcparam (setgcparam 0 1023) ≤ 3 :=
  have h := gcparam_quarter_storage 0 1023 (by decide)
  ⟨by decide, h.2.1, h.2.2.1, h.2.2.2.2.1⟩

end Lua
